import Mathlib

/-!
# Verification of the Costco receipt analytics engine

A shallow embedding of `analytics.js` (the analytics/aggregation engine of the
costco-analyzer repository) together with proofs about the claims of its
specification.

Modelling conventions:
* JavaScript numbers are modelled as rationals (`ℚ`); the one place the code
  can produce a non-finite number (division by a zero baseline price) is
  modelled with `Option ℚ`, `none` standing for the non-finite result.
* A JavaScript `Date` is modelled by the observations the engine uses of it:
  its numeric value `ms` (`valueOf`, used in comparisons and differences) and
  the year/month pair (used by `monthKey`).  A missing/unparseable date
  (`null` or the empty string produced by the parser) is `none`; in numeric
  comparisons JavaScript coerces those to `0`, modelled by `oms`.
* JavaScript objects used as dictionaries are modelled as insertion-ordered
  association lists; `Set` objects (only ever observed through `.size`) are
  modelled as duplicate-free lists built by folding `addToSet` over the
  traversal, mirroring the `forEach`/`add` loops.
* `Array.prototype.sort` (stable, ES2019) is modelled by a stable insertion
  sort `sortBy` driven by the boolean translation of the JS comparator.
-/

/-- A JS `Date` as observed by the engine: numeric value (milliseconds) plus
the year and (1-based) month that `monthKey` renders into the `"YYYY-MM"`
label. -/
structure JSDate where
  ms : ℤ
  y : ℕ
  mo : ℕ
deriving DecidableEq, Repr

/-- Numeric coercion of a possibly missing date, as JavaScript performs in
relational comparisons and subtraction: `null` (and `''`) coerce to `0`. -/
def oms (d : Option JSDate) : ℤ :=
  (d.map JSDate.ms).getD 0

/-- One normalized line-item record (the parser's output), restricted to the
fields the analytics engine reads.  Numeric fields default to `0` and
identifier fields to `""` upstream, so they are total here. -/
structure Row where
  receipt_id : String
  order_number : String
  item_sku : String
  item_name : String
  item_actual_name : String
  department_id : String
  full_item_image : String
  transaction_date : Option JSDate
  quantity : ℚ
  unit_price : ℚ
  line_total : ℚ
  instant_savings : ℚ
  discount_amount : ℚ
  coupon_applied : ℚ
  shop_card_applied : ℚ
deriving DecidableEq, Repr

/-- The four receipt-level savings fields. -/
inductive SField where
  | instant_savings
  | discount_amount
  | coupon_applied
  | shop_card_applied
deriving DecidableEq, Repr

/-- Field access `r[f]` for a savings field name. -/
def getS (f : SField) (r : Row) : ℚ :=
  match f with
  | .instant_savings => r.instant_savings
  | .discount_amount => r.discount_amount
  | .coupon_applied => r.coupon_applied
  | .shop_card_applied => r.shop_card_applied

/-- The list of the four savings-field names passed to the deduplicator. -/
def savingsFields : List SField :=
  [.instant_savings, .discount_amount, .coupon_applied, .shop_card_applied]

/-- `r.receipt_id || r.order_number`: the receipt key, with the order number
as fallback when the receipt id is the empty string (falsy). -/
def receiptKey (r : Row) : String :=
  if r.receipt_id = "" then r.order_number else r.receipt_id

/-- `r.item_sku || r.item_name`: the item grouping key. -/
def itemKey (r : Row) : String :=
  if r.item_sku = "" then r.item_name else r.item_sku

/-- `round2(n) = Math.round(n * 100) / 100`; `Math.round` rounds half towards
positive infinity, i.e. `⌊x + 1/2⌋`. -/
def round2 (n : ℚ) : ℚ :=
  (⌊n * 100 + 1 / 2⌋ : ℤ) / 100

/-- `monthKey(date)`: the `"YYYY-MM"` label of a parseable date, `null`
otherwise.  The label string is encoded as the natural number
`y * 100 + mo`; for the 4-digit years and `01`–`12` months JavaScript
produces, the ascending string order of labels coincides with the numeric
order of this encoding. -/
def monthKey (d : Option JSDate) : Option ℕ :=
  d.map (fun dd => dd.y * 100 + dd.mo)

/-- `sum(arr, field) = arr.reduce((s, r) => s + (r[field] || 0), 0)`. -/
def sumField (arr : List Row) (f : Row → ℚ) : ℚ :=
  (arr.map f).sum

/-- `set.add(x)` for a JS `Set` modelled as a duplicate-free list (the engine
only ever reads `.size` of its sets). -/
def addToSet (x : String) (s : List String) : List String :=
  if x ∈ s then s else x :: s

/-! ## Insertion-ordered association lists

JavaScript objects used as dictionaries: string keys enumerate in insertion
order, a lookup of an absent key is `undefined`, and `map[k] = v` updates in
place or appends. -/

/-- Lookup in an insertion-ordered association list. -/
def alGet {κ V : Type _} [DecidableEq κ] (m : List (κ × V)) (k : κ) : Option V :=
  (m.find? (fun p => p.1 = k)).map (·.2)

/-- `m[k] = f (m[k] ?? dflt)`: update the entry for `k` in place, appending a
fresh entry `(k, f dflt)` when `k` is absent. -/
def alUpd {κ V : Type _} [DecidableEq κ] (k : κ) (f : V → V) (dflt : V) :
    List (κ × V) → List (κ × V)
  | [] => [(k, f dflt)]
  | (k', v) :: rest =>
      if k' = k then (k', f v) :: rest else (k', v) :: alUpd k f dflt rest

/-- One step of a keyed accumulation loop: records with no key are skipped,
otherwise the entry for the record's key is created from `init` and updated
by `upd`. -/
def mapStep {α κ V : Type _} [DecidableEq κ] (keyOf : α → Option κ)
    (init : α → V) (upd : α → V → V) (m : List (κ × V)) (a : α) :
    List (κ × V) :=
  match keyOf a with
  | none => m
  | some k => alUpd k (upd a) (init a) m

/-! ## Stable sorting

`Array.prototype.sort(cmp)` is a stable sort; `sortBy le` is a stable
insertion sort where `le x y = true` means the comparator allows `x` to stay
before `y` (i.e. `cmp(x, y) ≤ 0` for the translated comparator). -/

/-- Insert `a` after every element `b` of the (already placed) list with
`le b a = true`, i.e. after all elements the comparator does not strictly
order after `a` — the position a stable sort gives a later-arriving `a`. -/
def sInsert {α : Type _} (le : α → α → Bool) (a : α) : List α → List α
  | [] => [a]
  | b :: l => if le b a then b :: sInsert le a l else a :: b :: l

/-- Stable sort by the boolean relation `le`. -/
def sortBy {α : Type _} (le : α → α → Bool) (l : List α) : List α :=
  l.foldl (fun acc a => sInsert le a acc) []

theorem sInsert_perm {α : Type _} (le : α → α → Bool) (a : α) (l : List α) :
    List.Perm (sInsert le a l) (a :: l) := by
  induction l with
  | nil => simp [sInsert]
  | cons b t ih =>
      by_cases h : le b a
      · simpa [sInsert, h] using ((ih.cons b).trans (List.Perm.swap a b t))
      · simp [sInsert, h]

theorem sortBy_perm {α : Type _} (le : α → α → Bool) (l : List α) :
    List.Perm (sortBy le l) l := by
  suffices h : ∀ acc : List α,
      List.Perm (l.foldl (fun acc a => sInsert le a acc) acc) (acc ++ l) by
    simpa using h []
  induction l with
  | nil => intro acc; simp
  | cons a t ih =>
      intro acc
      have h1 : List.Perm (t.foldl (fun acc a => sInsert le a acc)
          (sInsert le a acc)) (sInsert le a acc ++ t) := ih _
      have h2 : List.Perm (sInsert le a acc ++ t) ((a :: acc) ++ t) :=
        (sInsert_perm le a acc).append_right t
      have h3 : List.Perm ((a :: acc) ++ t) (acc ++ a :: t) := by
        simpa using (List.perm_middle :
          List.Perm (acc ++ a :: t) (a :: (acc ++ t))).symm
      exact (h1.trans h2).trans h3

theorem sInsert_pairwise {α : Type _} (le : α → α → Bool)
    (hTot : ∀ x y, le x y = true ∨ le y x = true)
    (hTrans : ∀ x y z, le x y = true → le y z = true → le x z = true)
    (a : α) (l : List α) (hl : l.Pairwise (fun x y => le x y = true)) :
    (sInsert le a l).Pairwise (fun x y => le x y = true) := by
  induction l with
  | nil => simp [sInsert]
  | cons b t ih =>
      rcases List.pairwise_cons.mp hl with ⟨hb, ht⟩
      by_cases h : le b a
      · have hmem : ∀ x ∈ sInsert le a t, le b x = true := by
          intro x hx
          have := (sInsert_perm le a t).mem_iff.mp hx
          rcases List.mem_cons.mp this with rfl | hx'
          · exact h
          · exact hb x hx'
        simpa [sInsert, h] using List.pairwise_cons.mpr ⟨hmem, ih ht⟩
      · have hab : le a b = true := (hTot a b).resolve_right (by simpa using h)
        simp only [sInsert, h, if_false, Bool.false_eq_true]
        refine List.pairwise_cons.mpr ⟨?_, hl⟩
        intro x hx
        rcases List.mem_cons.mp hx with rfl | hx'
        · exact hab
        · exact hTrans a b x hab (hb x hx')

theorem sortBy_pairwise {α : Type _} (le : α → α → Bool)
    (hTot : ∀ x y, le x y = true ∨ le y x = true)
    (hTrans : ∀ x y z, le x y = true → le y z = true → le x z = true)
    (l : List α) :
    (sortBy le l).Pairwise (fun x y => le x y = true) := by
  suffices h : ∀ acc : List α, acc.Pairwise (fun x y => le x y = true) →
      (l.foldl (fun acc a => sInsert le a acc) acc).Pairwise
        (fun x y => le x y = true) by
    exact h [] (by simp)
  induction l with
  | nil => intro acc hacc; simpa using hacc
  | cons a t ih =>
      intro acc hacc
      exact ih _ (sInsert_pairwise le hTot hTrans a acc hacc)

/-! ## Receipt deduplicator (`deduplicateReceiptField`, analytics.js 115–131)

Walks the rows in order; on first sight of a receipt key it adds that
record's values for the requested fields into the running totals, and later
records with the same key are skipped. -/

/-- One loop iteration of `deduplicateReceiptField`: state is the list of
seen keys plus the running totals. -/
def dedupStep (fields : List SField) (st : List String × (SField → ℚ))
    (r : Row) : List String × (SField → ℚ) :=
  if receiptKey r ∈ st.1 then st
  else (receiptKey r :: st.1,
    fun f => if f ∈ fields then st.2 f + getS f r else st.2 f)

/-- `deduplicateReceiptField(rows, fields)`: one total per requested field,
taking only the first record per receipt key (fields not requested stay 0,
mirroring the totals object that only holds the requested fields). -/
def deduplicateReceiptField (rows : List Row) (fields : List SField) :
    SField → ℚ :=
  (rows.foldl (dedupStep fields) ([], fun _ => 0)).2

/-- The subsequence of `rows` keeping, for each distinct receipt key, the
first record carrying that key (`seen` = keys already taken).  This is the
specification-side description of what the deduplicator walks over. -/
def firstPerKeyAux (seen : List String) : List Row → List Row
  | [] => []
  | r :: rs =>
      if receiptKey r ∈ seen then firstPerKeyAux seen rs
      else r :: firstPerKeyAux (receiptKey r :: seen) rs

/-- First record per distinct receipt key, in first-occurrence order. -/
def firstPerKey (rows : List Row) : List Row :=
  firstPerKeyAux [] rows

/-! ## Summary aggregator (`computeSummary`, analytics.js 65–109) -/

structure Summary where
  totalSpent : ℚ
  totalPurchaseAmount : ℚ
  totalReturnAmount : ℚ
  totalTrips : ℕ
  totalItemsPurchased : ℚ
  totalItemsReturned : ℚ
  totalSavings : ℚ
  avgPerTrip : ℚ
deriving DecidableEq, Repr

/-- The naive per-line savings total of analytics.js 81–85: the absolute
value of the raw per-line sum of each of the four savings fields (computed,
then superseded by the deduplicated total in the returned summary). -/
def naiveTotalSavings (rows : List Row) : ℚ :=
  |sumField rows (·.instant_savings)| + |sumField rows (·.discount_amount)| +
    |sumField rows (·.coupon_applied)| + |sumField rows (·.shop_card_applied)|

/-- `computeSummary(rows, purchases, returns)`.  The two `Set`s of receipt
ids are built by one pass over `rows` (note: from `r.receipt_id` directly,
with no order-number fallback); `x || y` on the sizes picks the second count
when the first is 0. -/
def computeSummary (rows purchases returns : List Row) : Summary :=
  let totalSpent := sumField rows (·.line_total)
  let totalPurchaseAmount := sumField purchases (·.line_total)
  let totalReturnAmount := |sumField returns (·.line_total)|
  let idSets := rows.foldl (fun (s : List String × List String) r =>
      (addToSet r.receipt_id s.1,
        if 0 < r.quantity then addToSet r.receipt_id s.2 else s.2)) ([], [])
  let totalTrips :=
    if idSets.2.length = 0 then idSets.1.length else idSets.2.length
  let totalItemsPurchased := (purchases.map (fun r => |r.quantity|)).sum
  let totalItemsReturned := (returns.map (fun r => |r.quantity|)).sum
  let receiptSavings := deduplicateReceiptField rows savingsFields
  let dedupedTotalSavings :=
    |receiptSavings SField.instant_savings| +
      |receiptSavings SField.discount_amount| +
      |receiptSavings SField.coupon_applied| +
      |receiptSavings SField.shop_card_applied|
  { totalSpent := totalSpent
    totalPurchaseAmount := totalPurchaseAmount
    totalReturnAmount := totalReturnAmount
    totalTrips := totalTrips
    totalItemsPurchased := totalItemsPurchased
    totalItemsReturned := totalItemsReturned
    totalSavings := dedupedTotalSavings
    avgPerTrip := if 0 < totalTrips then totalSpent / totalTrips else 0 }

/-! ## Monthly spending (`computeMonthly`, analytics.js 135–154) -/

structure MonthlyOut where
  labels : List ℕ
  purchases : List ℚ
  returns : List ℚ
deriving DecidableEq, Repr

/-- Per-record bucket update: purchase lines add the line total to the
purchases component, every other record adds `|line_total|` to the returns
component. -/
def monthlyUpd (r : Row) (v : ℚ × ℚ) : ℚ × ℚ :=
  if 0 < r.quantity then (v.1 + r.line_total, v.2)
  else (v.1, v.2 + |r.line_total|)

def computeMonthly (rows : List Row) : MonthlyOut :=
  let map := rows.foldl
    (mapStep (fun r => monthKey r.transaction_date) (fun _ => (0, 0))
      monthlyUpd) []
  let labels := sortBy (fun a b => decide (a ≤ b)) (map.map (·.1))
  { labels := labels
    purchases := labels.map (fun k => round2 ((alGet map k).getD (0, 0)).1)
    returns := labels.map (fun k => round2 ((alGet map k).getD (0, 0)).2) }

/-! ## Full frequency table (`computeFrequencyTable`, analytics.js 237–262) -/

structure FreqEntry where
  sku : String
  name : String
  count : ℚ
  totalSpent : ℚ
  firstDate : Option JSDate
  lastDate : Option JSDate
deriving DecidableEq, Repr

def freqInit (r : Row) : FreqEntry :=
  { sku := r.item_sku, name := r.item_actual_name, count := 0, totalSpent := 0,
    firstDate := r.transaction_date, lastDate := r.transaction_date }

/-- Accumulate one purchase row: count and total, then the two guarded date
updates (`r.transaction_date && r.transaction_date < entry.firstDate` and the
symmetric `>` check; a missing stored date compares as its coercion `0`). -/
def freqUpd (r : Row) (e : FreqEntry) : FreqEntry :=
  let e1 := { e with count := e.count + |r.quantity|,
                     totalSpent := e.totalSpent + r.line_total }
  match r.transaction_date with
  | none => e1
  | some d =>
      let e2 := if d.ms < oms e1.firstDate then { e1 with firstDate := some d }
        else e1
      if oms e2.lastDate < d.ms then { e2 with lastDate := some d } else e2

def computeFrequencyTable (purchases : List Row) : List FreqEntry :=
  let map := purchases.foldl
    (mapStep (fun r => some (itemKey r)) freqInit freqUpd) []
  sortBy (fun a b => decide (b.count ≤ a.count)) (map.map (·.2))

/-! ## Price-change detector (`computePriceChanges`, analytics.js 266–298) -/

structure PriceObs where
  price : ℚ
  date : Option JSDate
deriving DecidableEq, Repr, Inhabited

structure PriceGroup where
  name : String
  prices : List PriceObs
deriving DecidableEq, Repr

/-- A price-change entry.  `changePercent` is `none` exactly when the JS
expression `(new − old) / old * 100` is non-finite (`Infinity`/`NaN`), which
happens iff the baseline `old` price is `0`. -/
structure PriceChange where
  name : String
  oldPrice : ℚ
  newPrice : ℚ
  change : ℚ
  changePercent : Option ℚ
  firstDate : Option JSDate
  lastDate : Option JSDate
deriving DecidableEq, Repr

def pcInit (r : Row) : PriceGroup :=
  { name := r.item_actual_name, prices := [] }

def pcUpd (r : Row) (g : PriceGroup) : PriceGroup :=
  { g with prices :=
      g.prices ++ [{ price := r.unit_price, date := r.transaction_date }] }

/-- Per-item step of the detector: skip groups with fewer than 2
observations or all-identical prices, otherwise compare the chronologically
first and last observation (stable sort by date value). -/
def mkPriceChange (g : PriceGroup) : Option PriceChange :=
  if g.prices.length < 2 then none
  else
    let sorted := sortBy (fun a b => decide (oms a.date ≤ oms b.date)) g.prices
    if 1 < (sorted.map (·.price)).dedup.length then
      let first := sorted.headI
      let last := sorted.getLastD first
      some { name := g.name, oldPrice := first.price, newPrice := last.price,
             change := round2 (last.price - first.price),
             changePercent := if first.price = 0 then none
               else some (round2 ((last.price - first.price) / first.price * 100)),
             firstDate := first.date, lastDate := last.date }
    else none

/-- Comparator key order for the final sort (descending absolute percent
change); the non-finite value compares above every finite one, as `Infinity`
does. -/
def pcAbsLe (a b : Option ℚ) : Bool :=
  match a, b with
  | some x, some y => decide (|x| ≤ |y|)
  | some _, none => true
  | none, some _ => false
  | none, none => true

def computePriceChanges (purchases : List Row) : List PriceChange :=
  let map := purchases.foldl
    (mapStep (fun r => some (itemKey r)) pcInit pcUpd) []
  let changes := (map.map (·.2)).filterMap mkPriceChange
  sortBy (fun a b => pcAbsLe b.changePercent a.changePercent) changes

/-! ## Savings breakdown (`computeSavingsBreakdown`, analytics.js 313–328) -/

structure Breakdown where
  labels : List String
  values : List ℚ
deriving DecidableEq, Repr

def computeSavingsBreakdown (rows : List Row) : Breakdown :=
  let receipt := deduplicateReceiptField rows savingsFields
  let data : List (String × ℚ) :=
    (if 0 < |receipt SField.instant_savings| then
      [("Instant Savings", |receipt SField.instant_savings|)] else []) ++
    (if 0 < |receipt SField.discount_amount| then
      [("Discounts", |receipt SField.discount_amount|)] else []) ++
    (if 0 < |receipt SField.coupon_applied| then
      [("Coupons", |receipt SField.coupon_applied|)] else []) ++
    (if 0 < |receipt SField.shop_card_applied| then
      [("Shop Card", |receipt SField.shop_card_applied|)] else [])
  { labels := data.map (·.1), values := data.map (fun p => round2 p.2) }

/-! ## Return-eligibility policy engine (`computePotentialReturns`,
analytics.js 382–514) -/

inductive RetPolicy where
  | standard
  | ninetyDay
deriving DecidableEq, Repr

structure DeptInfo where
  label : String
  policy : RetPolicy
deriving DecidableEq, Repr

/-- The static `RETURNABLE_DEPTS` policy table (analytics.js 382–393): the
object-literal lookup `RETURNABLE_DEPTS[id]` modelled as a finite table. -/
def RETURNABLE_DEPTS (id : String) : Option DeptInfo :=
  if id = "22" then some ⟨"Tires & Auto", .standard⟩
  else if id = "23" then some ⟨"Electronics & Batteries", .ninetyDay⟩
  else if id = "24" then some ⟨"Computers & Tech", .ninetyDay⟩
  else if id = "26" then some ⟨"Luggage & Travel", .standard⟩
  else if id = "28" then some ⟨"Toys & Seasonal", .standard⟩
  else if id = "31" then some ⟨"Apparel & Shoes", .standard⟩
  else if id = "32" then some ⟨"Home & Kitchen", .standard⟩
  else if id = "33" then some ⟨"Small Appliances", .standard⟩
  else if id = "38" then some ⟨"Furniture & Lighting", .standard⟩
  else if id = "39" then some ⟨"Baby Apparel", .standard⟩
  else none

inductive RetStatus where
  | urgent
  | limited
  | anytime
  | expired
deriving DecidableEq, Repr

/-- `statusOrder = { urgent: 0, limited: 1, anytime: 2, expired: 3 }`. -/
def statusOrder : RetStatus → ℕ
  | .urgent => 0
  | .limited => 1
  | .anytime => 2
  | .expired => 3

structure RetEntry where
  sku : String
  name : String
  department : String
  departmentId : String
  quantity : ℚ
  unitPrice : ℚ
  refundEstimate : ℚ
  purchaseDate : Option JSDate
  daysSincePurchase : ℤ
  policy : String
  daysRemaining : Option ℤ
  status : RetStatus
  image : String
deriving DecidableEq, Repr

/-- Per-item purchase aggregate (the `purchasedMap` values). -/
structure PurchAgg where
  sku : String
  name : String
  department_id : String
  totalQty : ℚ
  unitPrice : ℚ
  totalSpent : ℚ
  purchaseDate : Option JSDate
  image : String
deriving DecidableEq, Repr

def paInit (r : Row) : PurchAgg :=
  { sku := r.item_sku, name := r.item_actual_name,
    department_id := r.department_id, totalQty := 0,
    unitPrice := r.unit_price, totalSpent := 0,
    purchaseDate := r.transaction_date, image := r.full_item_image }

/-- Accumulate one purchase row; the most recent purchase date (numeric date
comparison, missing dates coercing to 0) also carries its unit price. -/
def paUpd (r : Row) (a : PurchAgg) : PurchAgg :=
  let a1 := { a with totalQty := a.totalQty + |r.quantity|,
                     totalSpent := a.totalSpent + r.line_total }
  if oms a1.purchaseDate < oms r.transaction_date then
    { a1 with purchaseDate := r.transaction_date, unitPrice := r.unit_price }
  else a1

def msPerDay : ℤ := 86400000

/-- The body of the `Object.entries(purchasedMap).forEach` loop: `none` when
the item is skipped (department outside the policy table, or nothing left
unreturned), otherwise the emitted eligibility entry. -/
def mkReturnEntry (today : ℤ) (returnedMap : List (String × ℚ))
    (kv : String × PurchAgg) : Option RetEntry :=
  match RETURNABLE_DEPTS kv.2.department_id with
  | none => none
  | some deptInfo =>
      let item := kv.2
      let returnedQty := (alGet returnedMap kv.1).getD 0
      let netQty := item.totalQty - returnedQty
      if netQty ≤ 0 then none
      else
        let daysSincePurchase := (today - oms item.purchaseDate).fdiv msPerDay
        let is90Day := deptInfo.policy = RetPolicy.ninetyDay
        let daysRemaining : Option ℤ :=
          if is90Day then some (90 - daysSincePurchase) else none
        let status :=
          if is90Day ∧ 90 - daysSincePurchase ≤ 0 then RetStatus.expired
          else if is90Day ∧ 90 - daysSincePurchase ≤ 14 then RetStatus.urgent
          else if is90Day then RetStatus.limited
          else RetStatus.anytime
        some { sku := item.sku, name := item.name,
               department := deptInfo.label, departmentId := item.department_id,
               quantity := netQty, unitPrice := item.unitPrice,
               refundEstimate := round2 (netQty * item.unitPrice),
               purchaseDate := item.purchaseDate,
               daysSincePurchase := daysSincePurchase,
               policy := if is90Day then "90-Day Return" else "Anytime Return",
               daysRemaining := daysRemaining, status := status,
               image := item.image }

/-- The final comparator: status priority ascending, ties by refund estimate
descending. -/
def retLe (a b : RetEntry) : Bool :=
  decide (statusOrder a.status < statusOrder b.status ∨
    (statusOrder a.status = statusOrder b.status ∧
      b.refundEstimate ≤ a.refundEstimate))

structure RetOut where
  all : List RetEntry
  returnable : List RetEntry
  urgent : List RetEntry
  expired : List RetEntry
  categories : List (String × (List RetEntry × ℚ))
  totalPotentialRefund : ℚ
  totalReturnableItems : ℚ
deriving DecidableEq, Repr

/-- `computePotentialReturns(rows)` with `today = new Date()` made an
explicit numeric parameter (the evaluation instant). -/
def computePotentialReturns (today : ℤ) (rows : List Row) : RetOut :=
  let purchases := rows.filter (fun r => 0 < r.quantity)
  let returns := rows.filter (fun r => r.quantity < 0)
  let returnedMap := returns.foldl
    (mapStep (fun r => some (itemKey r)) (fun _ => 0)
      (fun r v => v + |r.quantity|)) []
  let purchasedMap := purchases.foldl
    (mapStep (fun r => some (itemKey r)) paInit paUpd) []
  let results := purchasedMap.filterMap (mkReturnEntry today returnedMap)
  let categories := results.foldl
    (fun cats e => alUpd e.department
      (fun c => (c.1 ++ [e], c.2 + e.refundEstimate)) ([], 0) cats) []
  let sorted := sortBy retLe results
  let returnableItems := sorted.filter (fun e => e.status ≠ RetStatus.expired)
  { all := sorted
    returnable := returnableItems
    urgent := sorted.filter (fun e => e.status = RetStatus.urgent)
    expired := sorted.filter (fun e => e.status = RetStatus.expired)
    categories := categories
    totalPotentialRefund := round2 ((returnableItems.map (·.refundEstimate)).sum)
    totalReturnableItems := (returnableItems.map (·.quantity)).sum }

/-! ## Insight generator (`generateInsights`, analytics.js 518–625)

Each of the six rules appends zero or one insight; `generateInsights` is the
concatenation in the fixed source order.  An insight's message text is
modelled as the structured data interpolated into it (`IText`), since the
rendered strings are injective in that data. -/

inductive IType where
  | info
  | warning
  | success
deriving DecidableEq, Repr

/-- The data interpolated into each rule's message text. -/
inductive IText where
  | risingPrices (count : ℕ) (top : List (String × ℚ × Option ℚ))
  | repeatExpenses (top : List (String × ℚ × ℚ))
  | patterns (staples : ℕ) (oneTimers : ℕ) (topStaples : List String)
  | returnRateMsg (rate : ℚ)
  | trend (lastThree : List ℚ)
  | savingsRateMsg (rate : ℚ)
deriving DecidableEq, Repr

structure Insight where
  type : IType
  title : String
  text : IText
deriving DecidableEq, Repr

/-- Rule 1: rising prices (analytics.js 521–532). -/
def rule1Insights (purchases : List Row) : List Insight :=
  let priceChanges := computePriceChanges purchases
  let increases := priceChanges.filter (fun c => 0 < c.change)
  if 0 < increases.length then
    [{ type := .warning, title := "Rising Prices Detected",
       text := .risingPrices increases.length
         ((increases.take 3).map (fun i => (i.name, i.change, i.changePercent))) }]
  else []

/-- Rule 2: most expensive repeat purchases (analytics.js 534–550). -/
def rule2Insights (purchases : List Row) : List Insight :=
  let freq := computeFrequencyTable purchases
  let expensiveRepeats := (sortBy (fun a b => decide (b.totalSpent ≤ a.totalSpent))
    (freq.filter (fun f => 2 ≤ f.count))).take 3
  if 0 < expensiveRepeats.length then
    [{ type := .info, title := "Biggest Repeat Expenses",
       text := .repeatExpenses
         (expensiveRepeats.map (fun i => (i.name, i.count, i.totalSpent))) }]
  else []

/-- Rule 3: purchase patterns, always fires (analytics.js 552–563). -/
def rule3Insights (purchases : List Row) : List Insight :=
  let freq := computeFrequencyTable purchases
  let repeats := freq.filter (fun f => 3 ≤ f.count)
  let oneTimers := freq.filter (fun f => f.count = 1)
  [{ type := .info, title := "Purchase Patterns",
     text := .patterns repeats.length oneTimers.length
       ((repeats.take 5).map (·.name)) }]

/-- Rule 4: return rate (analytics.js 565–582). -/
def rule4Insights (purchases returns : List Row) : List Insight :=
  let totalItems := (purchases.map (fun r => |r.quantity|)).sum
  let returnedItems := (returns.map (fun r => |r.quantity|)).sum
  let rate := if 0 < totalItems then returnedItems / totalItems * 100 else 0
  if 5 < rate then
    [{ type := .warning, title := "High Return Rate",
       text := .returnRateMsg rate }]
  else
    [{ type := .success, title := "Low Return Rate",
       text := .returnRateMsg rate }]

/-- Rule 5: spending trend over the last 3 month buckets
(analytics.js 584–606). -/
def rule5Insights (rows : List Row) : List Insight :=
  let monthly := computeMonthly rows
  if 3 ≤ monthly.labels.length then
    let vals := monthly.purchases
    let lastThree := vals.drop (vals.length - 3)
    if lastThree.getD 1 0 < lastThree.getD 2 0 ∧
        lastThree.getD 0 0 < lastThree.getD 1 0 then
      [{ type := .warning, title := "Spending Is Trending Up",
         text := .trend lastThree }]
    else if lastThree.getD 2 0 < lastThree.getD 1 0 ∧
        lastThree.getD 1 0 < lastThree.getD 0 0 then
      [{ type := .success, title := "Spending Is Trending Down",
         text := .trend lastThree }]
    else []
  else []

/-- Rule 6: savings utilization (analytics.js 608–622). -/
def rule6Insights (rows purchases : List Row) : List Insight :=
  let savingsBreakdown := computeSavingsBreakdown rows
  let totalSavingsValue := savingsBreakdown.values.sum
  let totalPurchaseAmount := sumField purchases (·.line_total)
  if 0 < totalPurchaseAmount then
    let savingsRate := totalSavingsValue / totalPurchaseAmount * 100
    [{ type := if 5 < savingsRate then .success else .info,
       title := "Savings Rate", text := .savingsRateMsg savingsRate }]
  else []

def generateInsights (rows purchases returns : List Row) : List Insight :=
  rule1Insights purchases ++ rule2Insights purchases ++
    rule3Insights purchases ++ rule4Insights purchases returns ++
    rule5Insights rows ++ rule6Insights rows purchases

/-! ## Engine facade wiring (`computeAll`, analytics.js 41–61): the purchase
and return partitions passed to the aggregators. -/

def purchasesOf (rows : List Row) : List Row :=
  rows.filter (fun r => 0 < r.quantity)

def returnsOf (rows : List Row) : List Row :=
  rows.filter (fun r => r.quantity < 0)

def summaryOf (rows : List Row) : Summary :=
  computeSummary rows (purchasesOf rows) (returnsOf rows)

def insightsOf (rows : List Row) : List Insight :=
  generateInsights rows (purchasesOf rows) (returnsOf rows)

/-! ## Association-list lemmas -/

theorem alGet_nil {κ V : Type _} [DecidableEq κ] (k : κ) :
    alGet ([] : List (κ × V)) k = none := rfl

theorem alGet_cons {κ V : Type _} [DecidableEq κ] (p : κ × V)
    (m : List (κ × V)) (k : κ) :
    alGet (p :: m) k = if p.1 = k then some p.2 else alGet m k := by
  by_cases h : p.1 = k <;> simp [alGet, List.find?, h]

theorem alGet_alUpd {κ V : Type _} [DecidableEq κ] (k k' : κ) (f : V → V)
    (d : V) (m : List (κ × V)) :
    alGet (alUpd k f d m) k' =
      if k' = k then some (f ((alGet m k).getD d)) else alGet m k' := by
  induction m with
  | nil =>
      by_cases h : k' = k
      · subst h; simp [alUpd, alGet_cons, alGet_nil]
      · have h2 : ¬ k = k' := fun hc => h hc.symm
        simp [alUpd, alGet_cons, alGet_nil, h, h2]
  | cons p rest ih =>
      rcases p with ⟨pk, pv⟩
      by_cases hp : pk = k
      · subst hp
        by_cases h : k' = pk
        · subst h; simp [alUpd, alGet_cons]
        · have h2 : ¬ pk = k' := fun hc => h hc.symm
          simp [alUpd, alGet_cons, h, h2]
      · by_cases h : k' = k
        · subst h
          simp [alUpd, alGet_cons, hp, ih]
        · simp [alUpd, alGet_cons, hp, ih, h]

theorem alUpd_keys {κ V : Type _} [DecidableEq κ] (k : κ) (f : V → V) (d : V)
    (m : List (κ × V)) :
    (alUpd k f d m).map Prod.fst =
      if k ∈ m.map Prod.fst then m.map Prod.fst else m.map Prod.fst ++ [k] := by
  induction m with
  | nil => simp [alUpd]
  | cons p rest ih =>
      by_cases hp : p.1 = k
      · simp [alUpd, hp]
      · have : ¬ k = p.1 := fun hc => hp hc.symm
        by_cases hm : k ∈ rest.map Prod.fst <;>
          simp [alUpd, hp, ih, hm, this]

theorem alUpd_keys_nodup {κ V : Type _} [DecidableEq κ] (k : κ) (f : V → V)
    (d : V) (m : List (κ × V)) (h : (m.map Prod.fst).Nodup) :
    ((alUpd k f d m).map Prod.fst).Nodup := by
  rw [alUpd_keys]
  by_cases hm : k ∈ m.map Prod.fst
  · simpa [hm] using h
  · simpa [hm] using List.Nodup.append h (by simp) (by simpa using hm)

theorem alGet_eq_none_iff {κ V : Type _} [DecidableEq κ] (m : List (κ × V))
    (k : κ) : alGet m k = none ↔ k ∉ m.map Prod.fst := by
  induction m with
  | nil => simp [alGet_nil]
  | cons p rest ih =>
      by_cases hp : p.1 = k
      · subst hp; simp [alGet_cons]
      · have h2 : ¬ k = p.1 := fun hc => hp hc.symm
        simp [alGet_cons, hp, h2, ih]

theorem alGet_eq_some_of_mem {κ V : Type _} [DecidableEq κ]
    (m : List (κ × V)) (hnd : (m.map Prod.fst).Nodup) (k : κ) (v : V)
    (h : (k, v) ∈ m) : alGet m k = some v := by
  induction m with
  | nil => simp at h
  | cons p rest ih =>
      rw [List.map_cons, List.nodup_cons] at hnd
      rcases List.mem_cons.mp h with heq | hmem
      · rw [← heq]; simp [alGet_cons]
      · have hp : ¬ p.1 = k := by
          intro hc
          exact hnd.1 (hc ▸ List.mem_map.mpr ⟨(k, v), hmem, rfl⟩)
        simp [alGet_cons, hp, ih hnd.2 hmem]

theorem mem_values_exists_key {κ V : Type _} [DecidableEq κ]
    (m : List (κ × V)) (v : V) (h : v ∈ m.map Prod.snd) :
    ∃ k, (k, v) ∈ m := by
  rcases List.mem_map.mp h with ⟨p, hp, rfl⟩
  exact ⟨p.1, by simpa using hp⟩

/-! ## Characterization of keyed accumulation folds -/

theorem mapStep_foldl_get_of_some {α κ V : Type _} [DecidableEq κ]
    (keyOf : α → Option κ) (init : α → V) (upd : α → V → V) (k : κ)
    (l : List α) :
    ∀ m0 v, alGet m0 k = some v →
      alGet (l.foldl (mapStep keyOf init upd) m0) k =
        some ((l.filter (fun a => keyOf a = some k)).foldl
          (fun w a => upd a w) v) := by
  induction l with
  | nil => intro m0 v hv; simpa using hv
  | cons a t ih =>
      intro m0 v hv
      rcases hk : keyOf a with _ | k'
      · have h1 : mapStep keyOf init upd m0 a = m0 := by
          simp [mapStep, hk]
        have h2 : (a :: t).filter (fun a => keyOf a = some k)
            = t.filter (fun a => keyOf a = some k) := by
          simp [List.filter_cons, hk]
        rw [List.foldl_cons, h1, h2]
        exact ih m0 v hv
      · by_cases hkk : k' = k
        · subst hkk
          have hstep : alGet (alUpd k' (upd a) (init a) m0) k' =
              some (upd a v) := by
            rw [alGet_alUpd]; simp [hv]
          have h1 : mapStep keyOf init upd m0 a
              = alUpd k' (upd a) (init a) m0 := by
            simp [mapStep, hk]
          have h2 : (a :: t).filter (fun a => keyOf a = some k')
              = a :: t.filter (fun a => keyOf a = some k') := by
            simp [List.filter_cons, hk]
          rw [List.foldl_cons, h1, h2, List.foldl_cons]
          exact ih _ _ hstep
        · have hkn : ¬ k = k' := fun hc => hkk hc.symm
          have hstep : alGet (alUpd k' (upd a) (init a) m0) k = some v := by
            rw [alGet_alUpd]; simp [hkn, hv]
          have h1 : mapStep keyOf init upd m0 a
              = alUpd k' (upd a) (init a) m0 := by
            simp [mapStep, hk]
          have h2 : (a :: t).filter (fun a => keyOf a = some k)
              = t.filter (fun a => keyOf a = some k) := by
            simp [List.filter_cons, hk, hkk]
          rw [List.foldl_cons, h1, h2]
          exact ih _ _ hstep

theorem mapStep_foldl_get_of_none {α κ V : Type _} [DecidableEq κ]
    (keyOf : α → Option κ) (init : α → V) (upd : α → V → V) (k : κ)
    (l : List α) :
    ∀ m0, alGet m0 k = none →
      alGet (l.foldl (mapStep keyOf init upd) m0) k =
        match l.filter (fun a => keyOf a = some k) with
        | [] => none
        | a :: rest => some (rest.foldl (fun w a => upd a w)
            (upd a (init a))) := by
  induction l with
  | nil => intro m0 hv; simpa using hv
  | cons a t ih =>
      intro m0 hv
      rcases hk : keyOf a with _ | k'
      · have h1 : mapStep keyOf init upd m0 a = m0 := by
          simp [mapStep, hk]
        have h2 : (a :: t).filter (fun a => keyOf a = some k)
            = t.filter (fun a => keyOf a = some k) := by
          simp [List.filter_cons, hk]
        rw [List.foldl_cons, h1, h2]
        exact ih m0 hv
      · by_cases hkk : k' = k
        · subst hkk
          have hstep : alGet (alUpd k' (upd a) (init a) m0) k' =
              some (upd a (init a)) := by
            rw [alGet_alUpd]; simp [hv]
          have h1 : mapStep keyOf init upd m0 a
              = alUpd k' (upd a) (init a) m0 := by
            simp [mapStep, hk]
          have h2 : (a :: t).filter (fun a => keyOf a = some k')
              = a :: t.filter (fun a => keyOf a = some k') := by
            simp [List.filter_cons, hk]
          rw [List.foldl_cons, h1, h2]
          exact mapStep_foldl_get_of_some keyOf init upd k' t _ _ hstep
        · have hkn : ¬ k = k' := fun hc => hkk hc.symm
          have hstep : alGet (alUpd k' (upd a) (init a) m0) k = none := by
            rw [alGet_alUpd]; simp [hkn, hv]
          have h1 : mapStep keyOf init upd m0 a
              = alUpd k' (upd a) (init a) m0 := by
            simp [mapStep, hk]
          have h2 : (a :: t).filter (fun a => keyOf a = some k)
            = t.filter (fun a => keyOf a = some k) := by
            simp [List.filter_cons, hk, hkk]
          rw [List.foldl_cons, h1, h2]
          exact ih _ hstep

theorem mapStep_foldl_keys_nodup {α κ V : Type _} [DecidableEq κ]
    (keyOf : α → Option κ) (init : α → V) (upd : α → V → V) (l : List α) :
    ∀ m0, ((m0 : List (κ × V)).map Prod.fst).Nodup →
      ((l.foldl (mapStep keyOf init upd) m0).map Prod.fst).Nodup := by
  induction l with
  | nil => intro m0 h; simpa using h
  | cons a t ih =>
      intro m0 h
      match hk : keyOf a with
      | none => simpa [List.foldl_cons, mapStep, hk] using ih m0 h
      | some k' =>
          simpa [List.foldl_cons, mapStep, hk] using
            ih _ (alUpd_keys_nodup k' (upd a) (init a) m0 h)

/-! ## Deduplicator lemmas -/

/-- The records the deduplication loop skips: for each key, every record
after the first occurrence. -/
def droppedPerKeyAux (seen : List String) : List Row → List Row
  | [] => []
  | r :: rs =>
      if receiptKey r ∈ seen then r :: droppedPerKeyAux seen rs
      else droppedPerKeyAux (receiptKey r :: seen) rs

theorem deduplicateReceiptField_foldl (fields : List SField) (f : SField)
    (hf : f ∈ fields) (rows : List Row) :
    ∀ seen t, ((rows.foldl (dedupStep fields) (seen, t)).2) f
      = t f + ((firstPerKeyAux seen rows).map (getS f)).sum := by
  induction rows with
  | nil => intro seen t; simp [firstPerKeyAux]
  | cons r rs ih =>
      intro seen t
      by_cases h : receiptKey r ∈ seen
      · simp only [List.foldl_cons, dedupStep, h, if_true, firstPerKeyAux]
        exact ih seen t
      · simp only [List.foldl_cons, dedupStep, h, if_false, firstPerKeyAux]
        rw [ih (receiptKey r :: seen) _]
        simp [hf]
        ring

theorem firstPerKeyAux_sublist (seen : List String) (rows : List Row) :
    (firstPerKeyAux seen rows).Sublist rows := by
  induction rows generalizing seen with
  | nil => simp [firstPerKeyAux]
  | cons r rs ih =>
      by_cases h : receiptKey r ∈ seen
      · simpa [firstPerKeyAux, h] using (ih seen).cons r
      · simpa [firstPerKeyAux, h] using (ih (receiptKey r :: seen)).cons₂ r

theorem droppedPerKeyAux_sublist (seen : List String) (rows : List Row) :
    (droppedPerKeyAux seen rows).Sublist rows := by
  induction rows generalizing seen with
  | nil => simp [droppedPerKeyAux]
  | cons r rs ih =>
      by_cases h : receiptKey r ∈ seen
      · simpa [droppedPerKeyAux, h] using (ih seen).cons₂ r
      · simpa [droppedPerKeyAux, h] using (ih (receiptKey r :: seen)).cons r

theorem firstPerKeyAux_dropped_sum (g : Row → ℚ) (rows : List Row) :
    ∀ seen, ((firstPerKeyAux seen rows).map g).sum
        + ((droppedPerKeyAux seen rows).map g).sum
      = (rows.map g).sum := by
  induction rows with
  | nil => intro seen; simp [firstPerKeyAux, droppedPerKeyAux]
  | cons r rs ih =>
      intro seen
      by_cases h : receiptKey r ∈ seen
      · simp only [firstPerKeyAux, droppedPerKeyAux, h, if_true,
          List.map_cons, List.sum_cons]
        rw [← ih seen]; ring
      · simp only [firstPerKeyAux, droppedPerKeyAux, h, if_false,
          List.map_cons, List.sum_cons]
        rw [← ih (receiptKey r :: seen)]; ring

theorem mem_droppedPerKeyAux_of_shadowed (r : Row) (post : List Row) :
    ∀ (pre : List Row) (seen : List String),
      (receiptKey r ∈ seen ∨ ∃ r' ∈ pre, receiptKey r' = receiptKey r) →
      r ∈ droppedPerKeyAux seen (pre ++ r :: post) := by
  intro pre
  induction pre with
  | nil =>
      intro seen h
      rcases h with h | h
      · simp [droppedPerKeyAux, h]
      · simp at h
  | cons p pre' ih =>
      intro seen h
      by_cases hp : receiptKey p ∈ seen
      · simp only [List.cons_append, droppedPerKeyAux, hp, if_true]
        refine List.mem_cons_of_mem p (ih seen ?_)
        rcases h with h | ⟨r', hr', hk⟩
        · exact Or.inl h
        · rcases List.mem_cons.mp hr' with rfl | hr''
          · exact Or.inl (hk ▸ hp)
          · exact Or.inr ⟨r', hr'', hk⟩
      · simp only [List.cons_append, droppedPerKeyAux, hp, if_false]
        refine ih (receiptKey p :: seen) ?_
        rcases h with h | ⟨r', hr', hk⟩
        · exact Or.inl (List.mem_cons_of_mem _ h)
        · rcases List.mem_cons.mp hr' with rfl | hr''
          · exact Or.inl (by simp [hk])
          · exact Or.inr ⟨r', hr'', hk⟩

theorem firstPerKeyAux_keys (rows : List Row) :
    ∀ seen, ((firstPerKeyAux seen rows).map receiptKey).Nodup
      ∧ (∀ k, k ∈ (firstPerKeyAux seen rows).map receiptKey ↔
          (k ∈ rows.map receiptKey ∧ k ∉ seen)) := by
  induction rows with
  | nil => intro seen; simp [firstPerKeyAux]
  | cons r rs ih =>
      intro seen
      by_cases h : receiptKey r ∈ seen
      · rw [show firstPerKeyAux seen (r :: rs) = firstPerKeyAux seen rs from
          by simp [firstPerKeyAux, h]]
        refine ⟨(ih seen).1, fun k => ?_⟩
        rw [(ih seen).2 k, List.map_cons, List.mem_cons]
        constructor
        · exact fun hp => ⟨Or.inr hp.1, hp.2⟩
        · rintro ⟨h1 | h1, h2⟩
          · exact absurd (h1 ▸ h) h2
          · exact ⟨h1, h2⟩
      · rw [show firstPerKeyAux seen (r :: rs)
            = r :: firstPerKeyAux (receiptKey r :: seen) rs from
          by simp [firstPerKeyAux, h]]
        have hih := ih (receiptKey r :: seen)
        constructor
        · rw [List.map_cons]
          refine List.nodup_cons.mpr ⟨?_, hih.1⟩
          intro hc
          exact ((hih.2 _).mp hc).2 (List.mem_cons_self _ _)
        · intro k
          rw [List.map_cons, List.mem_cons, hih.2 k, List.map_cons]
          constructor
          · rintro (rfl | ⟨h1, h2⟩)
            · exact ⟨List.mem_cons_self _ _, h⟩
            · exact ⟨List.mem_cons_of_mem _ h1,
                fun hc => h2 (List.mem_cons_of_mem _ hc)⟩
          · rintro ⟨hmem, h2⟩
            rcases List.mem_cons.mp hmem with rfl | h1
            · exact Or.inl rfl
            · by_cases hk : k = receiptKey r
              · exact Or.inl hk
              · refine Or.inr ⟨h1, ?_⟩
                intro hc
                rcases List.mem_cons.mp hc with hc1 | hc2
                · exact hk hc1
                · exact h2 hc2

theorem deduplicateReceiptField_eq_firstPerKey_sum (rows : List Row)
    (fields : List SField) (f : SField) (hf : f ∈ fields) :
    deduplicateReceiptField rows fields f
      = ((firstPerKey rows).map (getS f)).sum := by
  have h := deduplicateReceiptField_foldl fields f hf rows [] (fun _ => 0)
  simpa [deduplicateReceiptField, firstPerKey] using h

theorem firstPerKeyAux_sum_toFinset (f : SField) (vf : String → ℚ) :
    ∀ rows : List Row, (∀ r ∈ rows, getS f r = vf (receiptKey r)) →
      ∀ seen : List String, ((firstPerKeyAux seen rows).map (getS f)).sum
        = ∑ k ∈ ((rows.map receiptKey).toFinset \ seen.toFinset), vf k := by
  intro rows
  induction rows with
  | nil => intro _ seen; simp [firstPerKeyAux]
  | cons r rs ih =>
      intro hvf seen
      have hr : getS f r = vf (receiptKey r) := hvf r (List.mem_cons_self _ _)
      have hrs : ∀ x ∈ rs, getS f x = vf (receiptKey x) :=
        fun x hx => hvf x (List.mem_cons_of_mem _ hx)
      by_cases h : receiptKey r ∈ seen
      · rw [show firstPerKeyAux seen (r :: rs) = firstPerKeyAux seen rs from
          by simp [firstPerKeyAux, h]]
        have hset : ((r :: rs).map receiptKey).toFinset \ seen.toFinset
            = (rs.map receiptKey).toFinset \ seen.toFinset := by
          ext x
          simp only [List.map_cons, List.toFinset_cons, Finset.mem_sdiff,
            Finset.mem_insert, List.mem_toFinset]
          constructor
          · rintro ⟨rfl | hx, hT⟩
            · exact absurd h hT
            · exact ⟨hx, hT⟩
          · rintro ⟨hx, hT⟩
            exact ⟨Or.inr hx, hT⟩
        rw [hset]
        exact ih hrs seen
      · rw [show firstPerKeyAux seen (r :: rs)
            = r :: firstPerKeyAux (receiptKey r :: seen) rs from
          by simp [firstPerKeyAux, h]]
        have hset : ((r :: rs).map receiptKey).toFinset \ seen.toFinset
            = insert (receiptKey r) ((rs.map receiptKey).toFinset
                \ (receiptKey r :: seen).toFinset) := by
          ext x
          simp only [List.map_cons, List.toFinset_cons, Finset.mem_sdiff,
            Finset.mem_insert, List.mem_toFinset, List.toFinset_cons,
            List.mem_cons]
          constructor
          · rintro ⟨rfl | hx, hT⟩
            · exact Or.inl rfl
            · by_cases hxk : x = receiptKey r
              · exact Or.inl hxk
              · refine Or.inr ⟨hx, ?_⟩
                rintro (hc | hc)
                · exact hxk hc
                · exact hT hc
          · rintro (rfl | ⟨hx, hT⟩)
            · exact ⟨Or.inl rfl, h⟩
            · refine ⟨Or.inr hx, fun hc => hT (Or.inr hc)⟩
        have hnot : receiptKey r ∉ ((rs.map receiptKey).toFinset
            \ (receiptKey r :: seen).toFinset) := by
          simp
        rw [hset, Finset.sum_insert hnot, List.map_cons, List.sum_cons, hr,
          ih hrs (receiptKey r :: seen)]

theorem deduplicateReceiptField_perm (rows rows' : List Row)
    (hp : List.Perm rows' rows) (f : SField) (hf : f ∈ savingsFields)
    (hSame : ∀ r1 ∈ rows, ∀ r2 ∈ rows,
      receiptKey r1 = receiptKey r2 → getS f r1 = getS f r2) :
    deduplicateReceiptField rows' savingsFields f
      = deduplicateReceiptField rows savingsFields f := by
  set vf : String → ℚ := fun k =>
    ((rows.filter (fun x => receiptKey x = k)).map (getS f)).headD 0
    with hvf_def
  have hvf : ∀ r ∈ rows, getS f r = vf (receiptKey r) := by
    intro r hr
    have hrf : r ∈ rows.filter (fun x => receiptKey x = receiptKey r) := by
      simp [List.mem_filter, hr]
    cases hfil : rows.filter (fun x => receiptKey x = receiptKey r) with
    | nil => rw [hfil] at hrf; simp at hrf
    | cons a t =>
        have ha : a ∈ rows.filter (fun x => receiptKey x = receiptKey r) := by
          rw [hfil]; exact List.mem_cons_self _ _
        have ha2 := List.mem_filter.mp ha
        have hk : receiptKey r = receiptKey a := by
          have := ha2.2
          simp only [decide_eq_true_eq] at this
          exact this.symm
        have hval : getS f r = getS f a := hSame r hr a ha2.1 hk
        rw [hvf_def]
        simp only [hfil, List.map_cons, List.headD_cons]
        exact hval
  have hvf' : ∀ r ∈ rows', getS f r = vf (receiptKey r) :=
    fun r hr => hvf r (hp.mem_iff.mp hr)
  rw [deduplicateReceiptField_eq_firstPerKey_sum rows' _ f hf,
    deduplicateReceiptField_eq_firstPerKey_sum rows _ f hf, firstPerKey,
    firstPerKey, firstPerKeyAux_sum_toFinset f vf rows' hvf' [],
    firstPerKeyAux_sum_toFinset f vf rows hvf []]
  congr 1
  have : List.Perm (rows'.map receiptKey) (rows.map receiptKey) :=
    hp.map receiptKey
  exact congrArg (fun s => s \ ([] : List String).toFinset)
    (List.toFinset_eq_of_perm _ _ this)

/-! ## Summary lemmas -/

theorem foldl_pair_split {α β γ : Type _} (g1 : β → α → β) (g2 : γ → α → γ)
    (l : List α) : ∀ (a : β) (b : γ),
    l.foldl (fun s r => (g1 s.1 r, g2 s.2 r)) (a, b)
      = (l.foldl g1 a, l.foldl g2 b) := by
  induction l with
  | nil => intro a b; rfl
  | cons x t ih => intro a b; simpa [List.foldl_cons] using ih (g1 a x) (g2 b x)

theorem addToSet_toFinset (x : String) (s : List String) :
    (addToSet x s).toFinset = insert x s.toFinset := by
  by_cases h : x ∈ s
  · simp [addToSet, h, Finset.insert_eq_self.mpr (List.mem_toFinset.mpr h)]
  · simp [addToSet, h]

theorem addToSet_nodup (x : String) (s : List String) (h : s.Nodup) :
    (addToSet x s).Nodup := by
  by_cases hx : x ∈ s
  · simpa [addToSet, hx] using h
  · simpa [addToSet, hx] using List.nodup_cons.mpr ⟨hx, h⟩

theorem foldl_addToSet_toFinset (g : Row → String) (l : List Row) :
    ∀ s, (l.foldl (fun s r => addToSet (g r) s) s).toFinset
      = s.toFinset ∪ (l.map g).toFinset := by
  induction l with
  | nil => intro s; simp
  | cons r t ih =>
      intro s
      rw [List.foldl_cons, ih (addToSet (g r) s), addToSet_toFinset]
      ext x
      simp only [Finset.mem_union, Finset.mem_insert, List.map_cons,
        List.toFinset_cons]
      tauto

theorem foldl_addToSet_nodup (g : Row → String) (l : List Row) :
    ∀ s, s.Nodup → (l.foldl (fun s r => addToSet (g r) s) s).Nodup := by
  induction l with
  | nil => intro s h; simpa using h
  | cons r t ih =>
      intro s h
      exact ih _ (addToSet_nodup (g r) s h)

theorem foldl_addToSet_cond (g : Row → String) (p : Row → Prop)
    [DecidablePred p] (l : List Row) :
    ∀ s, l.foldl (fun s r => if p r then addToSet (g r) s else s) s
      = (l.filter (fun r => p r)).foldl (fun s r => addToSet (g r) s) s := by
  induction l with
  | nil => intro s; rfl
  | cons r t ih =>
      intro s
      by_cases h : p r
      · simp only [List.foldl_cons, h, if_true, List.filter_cons,
          decide_eq_true_eq, ih]
      · simp only [List.foldl_cons, h, if_false, List.filter_cons,
          decide_eq_true_eq, ih]

theorem computeSummary_totalSpent (rows purchases returns : List Row) :
    (computeSummary rows purchases returns).totalSpent
      = sumField rows (·.line_total) := rfl

theorem computeSummary_totalPurchaseAmount (rows purchases returns : List Row) :
    (computeSummary rows purchases returns).totalPurchaseAmount
      = sumField purchases (·.line_total) := rfl

theorem computeSummary_totalReturnAmount (rows purchases returns : List Row) :
    (computeSummary rows purchases returns).totalReturnAmount
      = |sumField returns (·.line_total)| := rfl

theorem computeSummary_totalItemsPurchased (rows purchases returns : List Row) :
    (computeSummary rows purchases returns).totalItemsPurchased
      = (purchases.map (fun r => |r.quantity|)).sum := rfl

theorem computeSummary_totalItemsReturned (rows purchases returns : List Row) :
    (computeSummary rows purchases returns).totalItemsReturned
      = (returns.map (fun r => |r.quantity|)).sum := rfl

theorem computeSummary_totalSavings (rows purchases returns : List Row) :
    (computeSummary rows purchases returns).totalSavings
      = |deduplicateReceiptField rows savingsFields SField.instant_savings|
        + |deduplicateReceiptField rows savingsFields SField.discount_amount|
        + |deduplicateReceiptField rows savingsFields SField.coupon_applied|
        + |deduplicateReceiptField rows savingsFields SField.shop_card_applied|
    := rfl

theorem computeSummary_avgPerTrip (rows purchases returns : List Row) :
    (computeSummary rows purchases returns).avgPerTrip
      = (if 0 < (computeSummary rows purchases returns).totalTrips
         then (computeSummary rows purchases returns).totalSpent
            / (computeSummary rows purchases returns).totalTrips
         else 0) := rfl

/-- The trip count of `computeSummary` in closed form: the number of distinct
`receipt_id` values among purchase lines, falling back to the number of
distinct `receipt_id` values among all rows when the former is `0`.  Note:
raw `receipt_id`, with no order-number fallback. -/
theorem computeSummary_totalTrips (rows purchases returns : List Row) :
    (computeSummary rows purchases returns).totalTrips
      = (if ((rows.filter (fun r => 0 < r.quantity)).map
              (fun r => r.receipt_id)).toFinset.card = 0
         then ((rows.map (fun r => r.receipt_id)).toFinset.card)
         else ((rows.filter (fun r => 0 < r.quantity)).map
              (fun r => r.receipt_id)).toFinset.card) := by
  have hsplit := foldl_pair_split
    (fun s (r : Row) => addToSet r.receipt_id s)
    (fun s (r : Row) => if 0 < r.quantity then addToSet r.receipt_id s else s)
    rows ([] : List String) ([] : List String)
  have hcond := foldl_addToSet_cond (fun r => r.receipt_id)
    (fun r => 0 < r.quantity) rows ([] : List String)
  have hall : (rows.foldl (fun s r => addToSet r.receipt_id s) []).toFinset
      = (rows.map (fun r => r.receipt_id)).toFinset := by
    simpa using foldl_addToSet_toFinset (fun r => r.receipt_id) rows []
  have hpur : ((rows.filter (fun r => 0 < r.quantity)).foldl
        (fun s r => addToSet r.receipt_id s) []).toFinset
      = ((rows.filter (fun r => 0 < r.quantity)).map
          (fun r => r.receipt_id)).toFinset := by
    simpa using foldl_addToSet_toFinset (fun r => r.receipt_id)
      (rows.filter (fun r => 0 < r.quantity)) []
  have hallnd : (rows.foldl (fun s r => addToSet r.receipt_id s) []).Nodup :=
    foldl_addToSet_nodup _ rows [] (by simp)
  have hpurnd : ((rows.filter (fun r => 0 < r.quantity)).foldl
      (fun s r => addToSet r.receipt_id s) []).Nodup :=
    foldl_addToSet_nodup _ _ [] (by simp)
  have lenAll : (rows.foldl (fun s r => addToSet r.receipt_id s) []).length
      = (rows.map (fun r => r.receipt_id)).toFinset.card := by
    rw [← hall, List.toFinset_card_of_nodup hallnd]
  have lenPur : ((rows.filter (fun r => 0 < r.quantity)).foldl
        (fun s r => addToSet r.receipt_id s) []).length
      = ((rows.filter (fun r => 0 < r.quantity)).map
          (fun r => r.receipt_id)).toFinset.card := by
    rw [← hpur, List.toFinset_card_of_nodup hpurnd]
  show (let idSets := rows.foldl (fun (s : List String × List String) r =>
      (addToSet r.receipt_id s.1,
        if 0 < r.quantity then addToSet r.receipt_id s.2 else s.2)) ([], []);
    if idSets.2.length = 0 then idSets.1.length else idSets.2.length) = _
  rw [show (fun (s : List String × List String) (r : Row) =>
      (addToSet r.receipt_id s.1,
        if 0 < r.quantity then addToSet r.receipt_id s.2 else s.2))
    = (fun (s : List String × List String) (r : Row) =>
      ((fun t (r : Row) => addToSet r.receipt_id t) s.1 r,
       (fun t (r : Row) => if 0 < r.quantity then addToSet r.receipt_id t
          else t) s.2 r)) from rfl]
  rw [hsplit]
  simp only [hcond, lenAll, lenPur]

attribute [ext] Summary

theorem summaryOf_perm (rows rows' : List Row) (hp : List.Perm rows' rows)
    (hSame : ∀ f ∈ savingsFields, ∀ r1 ∈ rows, ∀ r2 ∈ rows,
      receiptKey r1 = receiptKey r2 → getS f r1 = getS f r2) :
    summaryOf rows' = summaryOf rows := by
  have hpp : List.Perm (purchasesOf rows') (purchasesOf rows) := hp.filter _
  have hpr : List.Perm (returnsOf rows') (returnsOf rows) := hp.filter _
  have cTS : (computeSummary rows' (purchasesOf rows') (returnsOf rows')).totalSpent
      = (computeSummary rows (purchasesOf rows) (returnsOf rows)).totalSpent := by
    rw [computeSummary_totalSpent, computeSummary_totalSpent]
    exact (hp.map _).sum_eq
  have cPA : (computeSummary rows' (purchasesOf rows') (returnsOf rows')).totalPurchaseAmount
      = (computeSummary rows (purchasesOf rows) (returnsOf rows)).totalPurchaseAmount := by
    rw [computeSummary_totalPurchaseAmount, computeSummary_totalPurchaseAmount]
    exact (hpp.map _).sum_eq
  have cRA : (computeSummary rows' (purchasesOf rows') (returnsOf rows')).totalReturnAmount
      = (computeSummary rows (purchasesOf rows) (returnsOf rows)).totalReturnAmount := by
    rw [computeSummary_totalReturnAmount, computeSummary_totalReturnAmount]
    rw [show sumField (returnsOf rows') (fun r => r.line_total)
        = sumField (returnsOf rows) (fun r => r.line_total) from (hpr.map _).sum_eq]
  have cTrips : (computeSummary rows' (purchasesOf rows') (returnsOf rows')).totalTrips
      = (computeSummary rows (purchasesOf rows) (returnsOf rows)).totalTrips := by
    rw [computeSummary_totalTrips, computeSummary_totalTrips,
      List.toFinset_eq_of_perm _ _ (hp.map (fun r => r.receipt_id)),
      List.toFinset_eq_of_perm _ _ ((hp.filter _).map (fun r => r.receipt_id))]
  have cIP : (computeSummary rows' (purchasesOf rows') (returnsOf rows')).totalItemsPurchased
      = (computeSummary rows (purchasesOf rows) (returnsOf rows)).totalItemsPurchased := by
    rw [computeSummary_totalItemsPurchased, computeSummary_totalItemsPurchased]
    exact (hpp.map _).sum_eq
  have cIR : (computeSummary rows' (purchasesOf rows') (returnsOf rows')).totalItemsReturned
      = (computeSummary rows (purchasesOf rows) (returnsOf rows)).totalItemsReturned := by
    rw [computeSummary_totalItemsReturned, computeSummary_totalItemsReturned]
    exact (hpr.map _).sum_eq
  have cSav : (computeSummary rows' (purchasesOf rows') (returnsOf rows')).totalSavings
      = (computeSummary rows (purchasesOf rows) (returnsOf rows)).totalSavings := by
    have hd1 := deduplicateReceiptField_perm rows rows' hp SField.instant_savings
      (by simp [savingsFields]) (hSame SField.instant_savings (by simp [savingsFields]))
    have hd2 := deduplicateReceiptField_perm rows rows' hp SField.discount_amount
      (by simp [savingsFields]) (hSame SField.discount_amount (by simp [savingsFields]))
    have hd3 := deduplicateReceiptField_perm rows rows' hp SField.coupon_applied
      (by simp [savingsFields]) (hSame SField.coupon_applied (by simp [savingsFields]))
    have hd4 := deduplicateReceiptField_perm rows rows' hp SField.shop_card_applied
      (by simp [savingsFields]) (hSame SField.shop_card_applied (by simp [savingsFields]))
    rw [computeSummary_totalSavings, computeSummary_totalSavings, hd1, hd2, hd3, hd4]
  have cAvg : (computeSummary rows' (purchasesOf rows') (returnsOf rows')).avgPerTrip
      = (computeSummary rows (purchasesOf rows) (returnsOf rows)).avgPerTrip := by
    rw [computeSummary_avgPerTrip, computeSummary_avgPerTrip, cTrips, cTS]
  show computeSummary rows' (purchasesOf rows') (returnsOf rows')
      = computeSummary rows (purchasesOf rows) (returnsOf rows)
  exact Summary.ext cTS cPA cRA cTrips cIP cIR cSav cAvg

/-! ## Savings-sum inequalities -/

theorem sum_map_nonneg_mem (l : List Row) (g : Row → ℚ)
    (h : ∀ r ∈ l, 0 ≤ g r) : 0 ≤ (l.map g).sum := by
  refine List.sum_nonneg ?_
  intro x hx
  rcases List.mem_map.mp hx with ⟨r, hr, rfl⟩
  exact h r hr

theorem sum_map_pos_of_mem (l : List Row) (g : Row → ℚ) (r : Row)
    (hr : r ∈ l) (hnn : ∀ x ∈ l, 0 ≤ g x) (hpos : 0 < g r) :
    0 < (l.map g).sum := by
  induction l with
  | nil => simp at hr
  | cons a t ih =>
      have ht : ∀ x ∈ t, 0 ≤ g x :=
        fun x hx => hnn x (List.mem_cons_of_mem _ hx)
      rcases List.mem_cons.mp hr with rfl | hmem
      · have h2 : 0 ≤ (t.map g).sum := sum_map_nonneg_mem t g ht
        rw [List.map_cons, List.sum_cons]
        linarith
      · have ha : 0 ≤ g a := hnn a (List.mem_cons_self _ _)
        have h2 := ih hmem ht
        rw [List.map_cons, List.sum_cons]
        linarith

theorem dedup_lt_naive (rows : List Row)
    (hnn : ∀ r ∈ rows, ∀ f ∈ savingsFields, 0 ≤ getS f r)
    (pre : List Row) (r0 : Row) (post : List Row)
    (hsplit : rows = pre ++ r0 :: post)
    (hshadow : ∃ r' ∈ pre, receiptKey r' = receiptKey r0)
    (f0 : SField) (hf0 : f0 ∈ savingsFields) (hnz : getS f0 r0 ≠ 0) :
    (summaryOf rows).totalSavings < naiveTotalSavings rows := by
  have hr0mem : r0 ∈ rows := by
    rw [hsplit]; exact List.mem_append.mpr (Or.inr (List.mem_cons_self _ _))
  -- per-field facts
  have hFmem : ∀ r ∈ firstPerKey rows, r ∈ rows :=
    fun r hr => (firstPerKeyAux_sublist [] rows).mem hr
  have hDmem : ∀ r ∈ droppedPerKeyAux [] rows, r ∈ rows :=
    fun r hr => (droppedPerKeyAux_sublist [] rows).mem hr
  have hFnn : ∀ f ∈ savingsFields, ∀ r ∈ firstPerKey rows, 0 ≤ getS f r :=
    fun f hf r hr => hnn r (hFmem r hr) f hf
  have hDnn : ∀ f ∈ savingsFields, ∀ r ∈ droppedPerKeyAux [] rows,
      0 ≤ getS f r := fun f hf r hr => hnn r (hDmem r hr) f hf
  have hRnn : ∀ f ∈ savingsFields, ∀ r ∈ rows, 0 ≤ getS f r :=
    fun f hf r hr => hnn r hr f hf
  have hsum : ∀ f : SField,
      ((firstPerKey rows).map (getS f)).sum
        + ((droppedPerKeyAux [] rows).map (getS f)).sum
      = (rows.map (getS f)).sum :=
    fun f => firstPerKeyAux_dropped_sum (getS f) rows []
  have hdd : ∀ f ∈ savingsFields,
      deduplicateReceiptField rows savingsFields f
        = ((firstPerKey rows).map (getS f)).sum :=
    fun f hf => deduplicateReceiptField_eq_firstPerKey_sum rows savingsFields f hf
  have habsF : ∀ f ∈ savingsFields, |((firstPerKey rows).map (getS f)).sum|
      = ((firstPerKey rows).map (getS f)).sum :=
    fun f hf => abs_of_nonneg (sum_map_nonneg_mem _ _ (hFnn f hf))
  have habsR : ∀ f ∈ savingsFields, |(rows.map (getS f)).sum|
      = (rows.map (getS f)).sum :=
    fun f hf => abs_of_nonneg (sum_map_nonneg_mem _ _ (hRnn f hf))
  have hDpos : 0 < ((droppedPerKeyAux [] rows).map (getS f0)).sum := by
    have hd : r0 ∈ droppedPerKeyAux [] rows := by
      rw [hsplit]
      exact mem_droppedPerKeyAux_of_shadowed r0 post pre []
        (Or.inr hshadow)
    have hp0 : 0 < getS f0 r0 :=
      lt_of_le_of_ne (hnn r0 hr0mem f0 hf0) (Ne.symm hnz)
    exact sum_map_pos_of_mem _ _ r0 hd (hDnn f0 hf0) hp0
  have hDnn4 : ∀ f ∈ savingsFields,
      0 ≤ ((droppedPerKeyAux [] rows).map (getS f)).sum :=
    fun f hf => sum_map_nonneg_mem _ _ (hDnn f hf)
  -- expand both sides
  have m1 : SField.instant_savings ∈ savingsFields := by simp [savingsFields]
  have m2 : SField.discount_amount ∈ savingsFields := by simp [savingsFields]
  have m3 : SField.coupon_applied ∈ savingsFields := by simp [savingsFields]
  have m4 : SField.shop_card_applied ∈ savingsFields := by simp [savingsFields]
  have hL : (summaryOf rows).totalSavings
      = ((firstPerKey rows).map (getS SField.instant_savings)).sum
        + ((firstPerKey rows).map (getS SField.discount_amount)).sum
        + ((firstPerKey rows).map (getS SField.coupon_applied)).sum
        + ((firstPerKey rows).map (getS SField.shop_card_applied)).sum := by
    rw [summaryOf, computeSummary_totalSavings, hdd _ m1, hdd _ m2, hdd _ m3,
      hdd _ m4, habsF _ m1, habsF _ m2, habsF _ m3, habsF _ m4]
  have hR : naiveTotalSavings rows
      = (rows.map (getS SField.instant_savings)).sum
        + (rows.map (getS SField.discount_amount)).sum
        + (rows.map (getS SField.coupon_applied)).sum
        + (rows.map (getS SField.shop_card_applied)).sum := by
    rw [show naiveTotalSavings rows
        = |(rows.map (getS SField.instant_savings)).sum|
          + |(rows.map (getS SField.discount_amount)).sum|
          + |(rows.map (getS SField.coupon_applied)).sum|
          + |(rows.map (getS SField.shop_card_applied)).sum| from rfl,
      habsR _ m1, habsR _ m2, habsR _ m3, habsR _ m4]
  rw [hL, hR, ← hsum SField.instant_savings, ← hsum SField.discount_amount,
    ← hsum SField.coupon_applied, ← hsum SField.shop_card_applied]
  have d1 := hDnn4 _ m1
  have d2 := hDnn4 _ m2
  have d3 := hDnn4 _ m3
  have d4 := hDnn4 _ m4
  have : f0 = SField.instant_savings ∨ f0 = SField.discount_amount
      ∨ f0 = SField.coupon_applied ∨ f0 = SField.shop_card_applied := by
    simpa [savingsFields] using hf0
  rcases this with rfl | rfl | rfl | rfl <;> linarith

/-! ## Monthly-series lemmas -/

theorem mapStep_foldl_get_none_iff {α κ V : Type _} [DecidableEq κ]
    (keyOf : α → Option κ) (init : α → V) (upd : α → V → V) (k : κ)
    (l : List α) :
    alGet (l.foldl (mapStep keyOf init upd) []) k = none
      ↔ ∀ a ∈ l, keyOf a ≠ some k := by
  have h := mapStep_foldl_get_of_none keyOf init upd k l [] rfl
  rw [h]
  cases hfil : l.filter (fun a => keyOf a = some k) with
  | nil =>
      simp only [hfil]
      constructor
      · intro _ a ha hk
        have : a ∈ l.filter (fun a => keyOf a = some k) :=
          List.mem_filter.mpr ⟨ha, by simp [hk]⟩
        rw [hfil] at this
        simp at this
      · intro _; trivial
  | cons a rest =>
      simp only [hfil]
      constructor
      · intro hc; simp at hc
      · intro hall
        have ha : a ∈ l.filter (fun a => keyOf a = some k) := by
          rw [hfil]; exact List.mem_cons_self _ _
        have := List.mem_filter.mp ha
        exact absurd (by simpa using this.2) (hall a this.1)

theorem filter_and_split (rows : List Row) (P Q : Row → Prop)
    [DecidablePred P] [DecidablePred Q] :
    rows.filter (fun r => P r ∧ Q r)
      = (rows.filter (fun r => P r)).filter (fun r => Q r) := by
  induction rows with
  | nil => rfl
  | cons r t ih =>
      have hfun : (fun r => decide (P r ∧ Q r))
          = (fun r => decide (P r) && decide (Q r)) :=
        funext fun r => Bool.decide_and _ _
      rw [hfun] at ih ⊢
      by_cases hP : P r
      · by_cases hQ : Q r <;>
          simp [List.filter_cons, hP, hQ, ih, -List.filter_filter]
      · simp [List.filter_cons, hP, ih, -List.filter_filter]

theorem monthlyUpd_foldl (l : List Row) :
    ∀ v : ℚ × ℚ, l.foldl (fun w r => monthlyUpd r w) v
      = (v.1 + ((l.filter (fun r => 0 < r.quantity)).map
            (fun r => r.line_total)).sum,
         v.2 + ((l.filter (fun r => ¬ 0 < r.quantity)).map
            (fun r => |r.line_total|)).sum) := by
  induction l with
  | nil => intro v; simp
  | cons r t ih =>
      intro v
      by_cases h : 0 < r.quantity
      · rw [List.foldl_cons, ih]
        simp only [monthlyUpd, h, if_true, List.filter_cons]
        simp [h]
        ring
      · rw [List.foldl_cons, ih]
        simp only [monthlyUpd, h, if_false, List.filter_cons]
        simp [h]
        ring

theorem computeMonthly_get (rows : List Row) (k : ℕ) :
    (alGet (rows.foldl (mapStep (fun r => monthKey r.transaction_date)
        (fun _ => ((0 : ℚ), (0 : ℚ))) monthlyUpd) []) k).getD (0, 0)
      = (((rows.filter (fun r => monthKey r.transaction_date = some k
            ∧ 0 < r.quantity)).map (fun r => r.line_total)).sum,
         ((rows.filter (fun r => monthKey r.transaction_date = some k
            ∧ ¬ 0 < r.quantity)).map (fun r => |r.line_total|)).sum) := by
  have h := mapStep_foldl_get_of_none
    (fun r => monthKey r.transaction_date)
    (fun _ => ((0 : ℚ), (0 : ℚ))) monthlyUpd k rows [] rfl
  rw [filter_and_split rows _ _, filter_and_split rows _ _]
  cases hfil : rows.filter
      (fun r => monthKey r.transaction_date = some k) with
  | nil =>
      rw [h, hfil]
      simp
  | cons a rest =>
      rw [h, hfil]
      have : rest.foldl (fun w a => monthlyUpd a w)
            (monthlyUpd a ((0 : ℚ), (0 : ℚ)))
          = (a :: rest).foldl (fun w a => monthlyUpd a w) (0, 0) := rfl
      rw [Option.getD_some, this, monthlyUpd_foldl]
      simp

theorem computeMonthly_labels_mem (rows : List Row) (k : ℕ) :
    k ∈ (computeMonthly rows).labels
      ↔ ∃ r ∈ rows, monthKey r.transaction_date = some k := by
  have hperm := sortBy_perm (fun a b : ℕ => decide (a ≤ b))
    ((rows.foldl (mapStep (fun r => monthKey r.transaction_date)
      (fun _ => ((0 : ℚ), (0 : ℚ))) monthlyUpd) []).map (·.1))
  rw [show (computeMonthly rows).labels = sortBy (fun a b => decide (a ≤ b))
      ((rows.foldl (mapStep (fun r => monthKey r.transaction_date)
        (fun _ => ((0 : ℚ), (0 : ℚ))) monthlyUpd) []).map (·.1)) from rfl]
  rw [hperm.mem_iff]
  have hiff := mapStep_foldl_get_none_iff
    (fun r => monthKey r.transaction_date)
    (fun _ => ((0 : ℚ), (0 : ℚ))) monthlyUpd k rows
  constructor
  · intro hk
    by_contra hc
    push_neg at hc
    have : ∀ a ∈ rows, monthKey a.transaction_date ≠ some k := by
      intro a ha hk2
      exact absurd hk2 (hc a ha)
    have hnone := hiff.mpr this
    rw [alGet_eq_none_iff] at hnone
    exact hnone (by simpa using hk)
  · intro ⟨r, hr, hk⟩
    by_contra hc
    have hnone : alGet (rows.foldl (mapStep
        (fun r => monthKey r.transaction_date)
        (fun _ => ((0 : ℚ), (0 : ℚ))) monthlyUpd) []) k = none := by
      rw [alGet_eq_none_iff]
      simpa using hc
    exact (hiff.mp hnone) r hr hk

theorem computeMonthly_labels_pairwise (rows : List Row) :
    (computeMonthly rows).labels.Pairwise (· < ·) := by
  have hnd : ((rows.foldl (mapStep (fun r => monthKey r.transaction_date)
      (fun _ => ((0 : ℚ), (0 : ℚ))) monthlyUpd) []).map (·.1)).Nodup := by
    have := mapStep_foldl_keys_nodup (fun r => monthKey r.transaction_date)
      (fun _ => ((0 : ℚ), (0 : ℚ))) monthlyUpd rows [] (by simp)
    simpa [Function.comp] using this
  have hperm := sortBy_perm (fun a b : ℕ => decide (a ≤ b))
    ((rows.foldl (mapStep (fun r => monthKey r.transaction_date)
      (fun _ => ((0 : ℚ), (0 : ℚ))) monthlyUpd) []).map (·.1))
  have hnd2 : (computeMonthly rows).labels.Nodup := by
    rw [show (computeMonthly rows).labels = sortBy (fun a b => decide (a ≤ b))
      ((rows.foldl (mapStep (fun r => monthKey r.transaction_date)
        (fun _ => ((0 : ℚ), (0 : ℚ))) monthlyUpd) []).map (·.1)) from rfl]
    exact hperm.nodup_iff.mpr hnd
  have hle : (computeMonthly rows).labels.Pairwise
      (fun a b => decide (a ≤ b) = true) := by
    rw [show (computeMonthly rows).labels = sortBy (fun a b => decide (a ≤ b))
      ((rows.foldl (mapStep (fun r => monthKey r.transaction_date)
        (fun _ => ((0 : ℚ), (0 : ℚ))) monthlyUpd) []).map (·.1)) from rfl]
    refine sortBy_pairwise _ ?_ ?_ _
    · intro x y
      rcases Nat.le_total x y with h | h
      · exact Or.inl (by simpa using h)
      · exact Or.inr (by simpa using h)
    · intro x y z hxy hyz
      simp only [decide_eq_true_eq] at hxy hyz ⊢
      exact hxy.trans hyz
  have hcomb := List.Pairwise.and hle hnd2
  refine hcomb.imp ?_
  intro a b hab
  rcases hab with ⟨h1, h2⟩
  exact lt_of_le_of_ne (by simpa using h1) h2

/-! ## Frequency-table lemmas -/

theorem freqUpd_count (r : Row) (e : FreqEntry) :
    (freqUpd r e).count = e.count + |r.quantity| := by
  simp only [freqUpd]
  rcases r.transaction_date with _ | d
  · rfl
  · dsimp only
    split_ifs <;> rfl

theorem freqUpd_firstDate (r : Row) (e : FreqEntry) :
    (freqUpd r e).firstDate =
      match r.transaction_date with
      | none => e.firstDate
      | some d => if d.ms < oms e.firstDate then some d else e.firstDate := by
  simp only [freqUpd]
  rcases r.transaction_date with _ | d
  · rfl
  · dsimp only
    split_ifs <;> rfl

theorem freqUpd_lastDate (r : Row) (e : FreqEntry) :
    (freqUpd r e).lastDate =
      match r.transaction_date with
      | none => e.lastDate
      | some d => if oms e.lastDate < d.ms then some d else e.lastDate := by
  simp only [freqUpd]
  rcases r.transaction_date with _ | d
  · rfl
  · dsimp only
    split_ifs <;> rfl

theorem freq_foldl_count (l : List Row) :
    ∀ e : FreqEntry, (l.foldl (fun w r => freqUpd r w) e).count
      = e.count + (l.map (fun r => |r.quantity|)).sum := by
  induction l with
  | nil => intro e; simp
  | cons r t ih =>
      intro e
      rw [List.foldl_cons, ih, freqUpd_count, List.map_cons, List.sum_cons]
      ring

theorem freq_foldl_firstDate (l : List Row) :
    ∀ (e : FreqEntry) (dv : JSDate), e.firstDate = some dv →
      (∀ r ∈ l, r.transaction_date.isSome) →
      ((l.foldl (fun w r => freqUpd r w) e).firstDate).map JSDate.ms
        = some ((l.filterMap
            (fun r => r.transaction_date.map JSDate.ms)).foldl min dv.ms) := by
  induction l with
  | nil => intro e dv he _; simp [he]
  | cons r t ih =>
      intro e dv he hall
      rcases Option.isSome_iff_exists.mp (hall r (List.mem_cons_self _ _))
        with ⟨d, hd⟩
      have hfd : (freqUpd r e).firstDate
          = some (if d.ms < dv.ms then d else dv) := by
        rw [freqUpd_firstDate, hd]
        simp only [he, oms, Option.map_some', Option.getD_some]
        split_ifs <;> rfl
      have hms : (if d.ms < dv.ms then d else dv).ms = min dv.ms d.ms := by
        split_ifs with h
        · exact (min_eq_right (le_of_lt h)).symm
        · exact (min_eq_left (le_of_not_lt h)).symm
      rw [List.foldl_cons, ih (freqUpd r e) _ hfd
        (fun x hx => hall x (List.mem_cons_of_mem _ hx))]
      rw [List.filterMap_cons, hd]
      simp only [Option.map_some', List.foldl_cons, hms]

theorem freq_foldl_lastDate (l : List Row) :
    ∀ (e : FreqEntry) (dv : JSDate), e.lastDate = some dv →
      (∀ r ∈ l, r.transaction_date.isSome) →
      ((l.foldl (fun w r => freqUpd r w) e).lastDate).map JSDate.ms
        = some ((l.filterMap
            (fun r => r.transaction_date.map JSDate.ms)).foldl max dv.ms) := by
  induction l with
  | nil => intro e dv he _; simp [he]
  | cons r t ih =>
      intro e dv he hall
      rcases Option.isSome_iff_exists.mp (hall r (List.mem_cons_self _ _))
        with ⟨d, hd⟩
      have hfd : (freqUpd r e).lastDate
          = some (if dv.ms < d.ms then d else dv) := by
        rw [freqUpd_lastDate, hd]
        simp only [he, oms, Option.map_some', Option.getD_some]
        split_ifs <;> rfl
      have hms : (if dv.ms < d.ms then d else dv).ms = max dv.ms d.ms := by
        split_ifs with h
        · exact (max_eq_right (le_of_lt h)).symm
        · exact (max_eq_left (le_of_not_lt h)).symm
      rw [List.foldl_cons, ih (freqUpd r e) _ hfd
        (fun x hx => hall x (List.mem_cons_of_mem _ hx))]
      rw [List.filterMap_cons, hd]
      simp only [Option.map_some', List.foldl_cons, hms]

theorem computeFrequencyTable_mem (purchases : List Row) (e : FreqEntry)
    (he : e ∈ computeFrequencyTable purchases) :
    ∃ k a rest, purchases.filter (fun r => itemKey r = k) = a :: rest
      ∧ e = rest.foldl (fun w r => freqUpd r w) (freqUpd a (freqInit a)) := by
  have hperm := sortBy_perm (fun a b : FreqEntry => decide (b.count ≤ a.count))
    ((purchases.foldl (mapStep (fun r => some (itemKey r)) freqInit freqUpd)
      []).map (·.2))
  have he2 : e ∈ (purchases.foldl (mapStep (fun r => some (itemKey r))
      freqInit freqUpd) []).map (·.2) := hperm.mem_iff.mp he
  have hnd := mapStep_foldl_keys_nodup (fun r => some (itemKey r))
    freqInit freqUpd purchases [] (by simp)
  rcases mem_values_exists_key _ _ (by simpa using he2) with ⟨k, hk⟩
  have hget := alGet_eq_some_of_mem _ hnd k e hk
  have hchar := mapStep_foldl_get_of_none (fun r => some (itemKey r))
    freqInit freqUpd k purchases [] rfl
  rw [hget] at hchar
  have hfilter_eq : purchases.filter (fun r => some (itemKey r) = some k)
      = purchases.filter (fun r => itemKey r = k) := by
    congr 1
    funext r
    simp
  cases hfil : purchases.filter (fun r => some (itemKey r) = some k) with
  | nil => rw [hfil] at hchar; simp at hchar
  | cons a rest =>
      rw [hfil] at hchar
      refine ⟨k, a, rest, ?_, by simpa using hchar⟩
      rw [← hfilter_eq, hfil]

/-! ## Return-eligibility lemmas -/

theorem mem_computePotentialReturns_all (today : ℤ) (rows : List Row)
    (e : RetEntry) (he : e ∈ (computePotentialReturns today rows).all) :
    ∃ rm kv, mkReturnEntry today rm kv = some e := by
  have hperm := sortBy_perm retLe
    (((rows.filter (fun r => 0 < r.quantity)).foldl
        (mapStep (fun r => some (itemKey r)) paInit paUpd) []).filterMap
      (mkReturnEntry today ((rows.filter (fun r => r.quantity < 0)).foldl
        (mapStep (fun r => some (itemKey r)) (fun _ => 0)
          (fun r v => v + |r.quantity|)) [])))
  have he2 := hperm.mem_iff.mp he
  rcases List.mem_filterMap.mp he2 with ⟨kv, _, hkv⟩
  exact ⟨_, kv, hkv⟩

theorem mkReturnEntry_spec (today : ℤ) (rm : List (String × ℚ))
    (kv : String × PurchAgg) (e : RetEntry)
    (h : mkReturnEntry today rm kv = some e) :
    ∃ info, RETURNABLE_DEPTS e.departmentId = some info
      ∧ (info.policy = RetPolicy.standard → e.status = RetStatus.anytime)
      ∧ (info.policy = RetPolicy.ninetyDay →
          e.daysRemaining = some (90 - e.daysSincePurchase)
          ∧ (90 - e.daysSincePurchase ≤ 0 → e.status = RetStatus.expired)
          ∧ (0 < 90 - e.daysSincePurchase → 90 - e.daysSincePurchase ≤ 14 →
              e.status = RetStatus.urgent)
          ∧ (14 < 90 - e.daysSincePurchase → e.status = RetStatus.limited)) := by
  unfold mkReturnEntry at h
  cases hdep : RETURNABLE_DEPTS kv.2.department_id with
  | none => rw [hdep] at h; simp at h
  | some info =>
      rw [hdep] at h
      simp only at h
      by_cases hnet : kv.2.totalQty - (alGet rm kv.1).getD 0 ≤ 0
      · rw [if_pos hnet] at h; simp at h
      · rw [if_neg hnet] at h
        have he := Option.some.inj h
        subst he
        refine ⟨info, by simpa using hdep, ?_, ?_⟩
        · intro hpol
          simp [hpol]
        · intro hpol
          simp only [hpol, eq_self_iff_true, true_and, if_true]
          refine ⟨?_, ?_, ?_⟩
          · intro hle
            rw [if_pos hle]
          · intro hpos hle
            rw [if_neg (by omega), if_pos hle]
          · intro hgt
            rw [if_neg (by omega), if_neg (by omega)]

theorem cat_step_mem (P : RetEntry → Prop) (e : RetEntry) (hPe : P e) :
    ∀ cats : List (String × (List RetEntry × ℚ)),
      (∀ c ∈ cats, ∀ x ∈ c.2.1, P x) →
      ∀ c ∈ alUpd e.department
          (fun c => (c.1 ++ [e], c.2 + e.refundEstimate)) ([], 0) cats,
        ∀ x ∈ c.2.1, P x := by
  intro cats
  induction cats with
  | nil =>
      intro _ c hc x hx
      simp only [alUpd, List.mem_singleton] at hc
      subst hc
      simp only [List.nil_append, List.mem_singleton] at hx
      exact hx ▸ hPe
  | cons p rest ih =>
      intro hall c hc x hx
      by_cases hp : p.1 = e.department
      · rw [show alUpd e.department
            (fun c => (c.1 ++ [e], c.2 + e.refundEstimate)) ([], 0) (p :: rest)
            = (p.1, (p.2.1 ++ [e], p.2.2 + e.refundEstimate)) :: rest from
            by simp [alUpd, hp]] at hc
        rcases List.mem_cons.mp hc with rfl | hcr
        · rcases List.mem_append.mp hx with hx1 | hx1
          · exact hall p (List.mem_cons_self _ _) x hx1
          · rw [List.mem_singleton.mp hx1]; exact hPe
        · exact hall c (List.mem_cons_of_mem _ hcr) x hx
      · rw [show alUpd e.department
            (fun c => (c.1 ++ [e], c.2 + e.refundEstimate)) ([], 0) (p :: rest)
            = p :: alUpd e.department
                (fun c => (c.1 ++ [e], c.2 + e.refundEstimate)) ([], 0) rest
            from by simp [alUpd, hp]] at hc
        rcases List.mem_cons.mp hc with rfl | hcr
        · exact hall c (List.mem_cons_self _ _) x hx
        · exact ih (fun c2 hc2 => hall c2 (List.mem_cons_of_mem _ hc2))
            c hcr x hx

theorem cat_foldl_mem (P : RetEntry → Prop) (results : List RetEntry)
    (hres : ∀ e ∈ results, P e) :
    ∀ cats0, (∀ c ∈ cats0, ∀ x ∈ c.2.1, P x) →
      ∀ c ∈ results.foldl (fun cats e => alUpd e.department
          (fun c => (c.1 ++ [e], c.2 + e.refundEstimate)) ([], 0) cats) cats0,
        ∀ x ∈ c.2.1, P x := by
  induction results with
  | nil => intro cats0 h0 c hc x hx; exact h0 c hc x hx
  | cons e t ih =>
      intro cats0 h0 c hc x hx
      have he : P e := hres e (List.mem_cons_self _ _)
      have ht : ∀ y ∈ t, P y := fun y hy => hres y (List.mem_cons_of_mem _ hy)
      exact ih ht _ (cat_step_mem P e he cats0 h0) c hc x hx

/-! ## Insight-generator lemmas -/

theorem rule1_title (p : List Row) (i : Insight) (h : i ∈ rule1Insights p) :
    i.title = "Rising Prices Detected" := by
  simp only [rule1Insights] at h
  split_ifs at h
  · rw [List.mem_singleton.mp h]
  · simp at h

theorem rule2_title (p : List Row) (i : Insight) (h : i ∈ rule2Insights p) :
    i.title = "Biggest Repeat Expenses" := by
  simp only [rule2Insights] at h
  split_ifs at h
  · rw [List.mem_singleton.mp h]
  · simp at h

theorem rule3_title (p : List Row) (i : Insight) (h : i ∈ rule3Insights p) :
    i.title = "Purchase Patterns" := by
  simp only [rule3Insights] at h
  rw [List.mem_singleton.mp h]

theorem rule4_title (p r : List Row) (i : Insight)
    (h : i ∈ rule4Insights p r) :
    i.title = "High Return Rate" ∨ i.title = "Low Return Rate" := by
  simp only [rule4Insights] at h
  split_ifs at h
  · exact Or.inl (by rw [List.mem_singleton.mp h])
  · exact Or.inr (by rw [List.mem_singleton.mp h])
  · exact Or.inl (by rw [List.mem_singleton.mp h])
  · exact Or.inr (by rw [List.mem_singleton.mp h])

theorem rule6_title (rows p : List Row) (i : Insight)
    (h : i ∈ rule6Insights rows p) :
    i.title = "Savings Rate" := by
  simp only [rule6Insights] at h
  split_ifs at h
  · rw [List.mem_singleton.mp h]
  · rw [List.mem_singleton.mp h]
  · simp at h

theorem trend_insight_in_rule5 (rows p r : List Row) (i : Insight)
    (hi : i ∈ generateInsights rows p r)
    (ht : i.title = "Spending Is Trending Up"
      ∨ i.title = "Spending Is Trending Down") :
    i ∈ rule5Insights rows := by
  simp only [generateInsights, List.mem_append] at hi
  rcases hi with ((((h | h) | h) | h) | h) | h
  · rcases ht with ht | ht <;> rw [rule1_title p i h] at ht <;> exact absurd ht (by decide)
  · rcases ht with ht | ht <;> rw [rule2_title p i h] at ht <;> exact absurd ht (by decide)
  · rcases ht with ht | ht <;> rw [rule3_title p i h] at ht <;> exact absurd ht (by decide)
  · rcases rule4_title p r i h with h4 | h4 <;>
      rcases ht with ht | ht <;> rw [h4] at ht <;> exact absurd ht (by decide)
  · exact h
  · rcases ht with ht | ht <;> rw [rule6_title rows p i h] at ht <;> exact absurd ht (by decide)

theorem rule5_up_iff (rows : List Row) :
    (∃ i ∈ rule5Insights rows, i.title = "Spending Is Trending Up"
        ∧ i.type = IType.warning)
      ↔ (3 ≤ (computeMonthly rows).labels.length
          ∧ ((computeMonthly rows).purchases.drop
              ((computeMonthly rows).purchases.length - 3)).getD 1 0
            < ((computeMonthly rows).purchases.drop
              ((computeMonthly rows).purchases.length - 3)).getD 2 0
          ∧ ((computeMonthly rows).purchases.drop
              ((computeMonthly rows).purchases.length - 3)).getD 0 0
            < ((computeMonthly rows).purchases.drop
              ((computeMonthly rows).purchases.length - 3)).getD 1 0) := by
  simp only [rule5Insights]
  split_ifs with h1 h2 h3
  · simp only [List.mem_singleton]
    constructor
    · intro _; exact ⟨h1, h2.1, h2.2⟩
    · intro _; exact ⟨_, rfl, rfl, rfl⟩
  · simp only [List.mem_singleton]
    constructor
    · rintro ⟨i, rfl, hti, _⟩
      simp at hti
    · rintro ⟨_, hc1, hc2⟩
      exact absurd ⟨hc1, hc2⟩ h2
  · simp only [List.not_mem_nil]
    constructor
    · rintro ⟨i, hf, _⟩
      exact absurd hf (by simp)
    · rintro ⟨_, hc1, hc2⟩
      exact absurd ⟨hc1, hc2⟩ h2
  · simp only [List.not_mem_nil]
    constructor
    · rintro ⟨i, hf, _⟩
      exact absurd hf (by simp)
    · rintro ⟨hc, _⟩
      exact absurd hc h1

theorem rule5_down_iff (rows : List Row) :
    (∃ i ∈ rule5Insights rows, i.title = "Spending Is Trending Down"
        ∧ i.type = IType.success)
      ↔ (3 ≤ (computeMonthly rows).labels.length
          ∧ ((computeMonthly rows).purchases.drop
              ((computeMonthly rows).purchases.length - 3)).getD 2 0
            < ((computeMonthly rows).purchases.drop
              ((computeMonthly rows).purchases.length - 3)).getD 1 0
          ∧ ((computeMonthly rows).purchases.drop
              ((computeMonthly rows).purchases.length - 3)).getD 1 0
            < ((computeMonthly rows).purchases.drop
              ((computeMonthly rows).purchases.length - 3)).getD 0 0) := by
  simp only [rule5Insights]
  split_ifs with h1 h2 h3
  · simp only [List.mem_singleton]
    constructor
    · rintro ⟨i, rfl, hti, _⟩
      simp at hti
    · rintro ⟨_, hc1, hc2⟩
      have : ¬ (((computeMonthly rows).purchases.drop
            ((computeMonthly rows).purchases.length - 3)).getD 1 0
          < ((computeMonthly rows).purchases.drop
            ((computeMonthly rows).purchases.length - 3)).getD 2 0) := by
        intro hc
        exact absurd hc (not_lt.mpr (le_of_lt hc1))
      exact absurd h2 (by tauto)
  · simp only [List.mem_singleton]
    constructor
    · intro _; exact ⟨h1, h3.1, h3.2⟩
    · intro _; exact ⟨_, rfl, rfl, rfl⟩
  · simp only [List.not_mem_nil]
    constructor
    · rintro ⟨i, hf, _⟩
      exact absurd hf (by simp)
    · rintro ⟨_, hc1, hc2⟩
      exact absurd ⟨hc1, hc2⟩ h3
  · simp only [List.not_mem_nil]
    constructor
    · rintro ⟨i, hf, _⟩
      exact absurd hf (by simp)
    · rintro ⟨hc, _⟩
      exact absurd hc h1

/-! ## Concrete example data -/

/-- Helper building an example record: sku doubles as the item name, all
remaining savings fields are 0. -/
def mkRow (rid ord sku dept : String) (d : Option JSDate)
    (q up lt inst : ℚ) : Row :=
  { receipt_id := rid, order_number := ord, item_sku := sku, item_name := sku,
    item_actual_name := sku, department_id := dept, full_item_image := "",
    transaction_date := d, quantity := q, unit_price := up, line_total := lt,
    instant_savings := inst, discount_amount := 0, coupon_applied := 0,
    shop_card_applied := 0 }

/-- One receipt `R1` with three line items, each repeating
`instant_savings = 2`. -/
def exC1rows : List Row :=
  [mkRow "R1" "" "APPLES" "13" none 1 2 2 2,
   mkRow "R1" "" "BREAD" "13" none 1 3 3 2,
   mkRow "R1" "" "CHEESE" "13" none 1 4 4 2]

/-- Two purchases of one item whose chronologically first unit price is 0. -/
def exC2rows : List Row :=
  [mkRow "R1" "" "WIDGET" "13" (some ⟨1, 2024, 1⟩) 1 0 0 0,
   mkRow "R2" "" "WIDGET" "13" (some ⟨2, 2024, 2⟩) 1 5 5 0]

/-- A 90-day-policy (department 23) item bought at instant 0. -/
def exC3row : Row := mkRow "R9" "" "LAPTOP" "23" (some ⟨0, 2024, 1⟩) 1 100 100 0

/-- The eligibility entry the engine produces for `exC3row` evaluated
91 days after the purchase. -/
def exC3entry : RetEntry :=
  { sku := "LAPTOP", name := "LAPTOP", department := "Electronics & Batteries",
    departmentId := "23", quantity := 1, unitPrice := 100,
    refundEstimate := 100, purchaseDate := some ⟨0, 2024, 1⟩,
    daysSincePurchase := 91, policy := "90-Day Return",
    daysRemaining := some (-1), status := RetStatus.expired, image := "" }

/-- A returnable-department purchase next to a non-returnable (13) one. -/
def exC4rows : List Row :=
  [mkRow "R1" "" "SHOES" "31" (some ⟨0, 2024, 1⟩) 1 50 50 0,
   mkRow "R1" "" "MILK" "13" (some ⟨0, 2024, 1⟩) 1 4 4 0]

/-- The single eligibility entry produced from `exC4rows` at instant 0. -/
def exC4entry : RetEntry :=
  { sku := "SHOES", name := "SHOES", department := "Apparel & Shoes",
    departmentId := "31", quantity := 1, unitPrice := 50,
    refundEstimate := 50, purchaseDate := some ⟨0, 2024, 1⟩,
    daysSincePurchase := 0, policy := "Anytime Return",
    daysRemaining := none, status := RetStatus.anytime, image := "" }

/-- Two lines of receipt `R1`, same item and date, unit prices 5 then 6. -/
def rowA5 : Row := mkRow "R1" "" "APPLE" "13" (some ⟨1, 2024, 1⟩) 1 5 5 0

/-- Like `rowA5` but with unit price 6. -/
def rowB5 : Row := mkRow "R1" "" "APPLE" "13" (some ⟨1, 2024, 1⟩) 1 6 6 0

/-- Two rows for the C5 witness: same receipt, identical savings copies. -/
def w5a : Row := mkRow "R1" "" "APPLE" "13" none 1 5 5 2

/-- Second line of the same receipt with the same repeated savings value. -/
def w5b : Row := mkRow "R1" "" "BREAD" "13" none 1 6 6 2

/-- Empty receipt id, order number `A`. -/
def exT1 : Row := mkRow "" "A" "X" "13" none 1 1 1 0

/-- Empty receipt id, order number `B`. -/
def exT2 : Row := mkRow "" "B" "Y" "13" none 1 1 1 0

/-- Purchases in 2024-01 (100) and 2024-02 (50), plus a return-only month
2024-03: only two distinct purchase months. -/
def exM1 : Row := mkRow "R1" "" "P1" "13" (some ⟨1, 2024, 1⟩) 1 100 100 0

/-- See `exM1`. -/
def exM2 : Row := mkRow "R2" "" "P2" "13" (some ⟨2, 2024, 2⟩) 1 50 50 0

/-- See `exM1`: the 2024-03 record is a return. -/
def exM3 : Row := mkRow "R3" "" "P3" "13" (some ⟨3, 2024, 3⟩) (-1) 10 (-10) 0

/-- Monthly purchase totals 100, 150, 200 over three consecutive months. -/
def exC7w : List Row :=
  [mkRow "R1" "" "P1" "13" (some ⟨1, 2024, 1⟩) 1 100 100 0,
   mkRow "R2" "" "P2" "13" (some ⟨2, 2024, 2⟩) 1 150 150 0,
   mkRow "R3" "" "P3" "13" (some ⟨3, 2024, 3⟩) 1 200 200 0]

/-- A quantity-0 record carrying a non-zero line total. -/
def exZQ : Row := mkRow "R1" "" "GIFT" "13" (some ⟨1, 2024, 1⟩) 0 0 5 0

/-- Receipt `R1` repeats `instant_savings = 2` on two lines; receipt `R2`
carries `instant_savings = -4`. -/
def exS1 : Row := mkRow "R1" "" "A1" "13" none 1 1 1 2

/-- See `exS1`. -/
def exS2 : Row := mkRow "R1" "" "A2" "13" none 1 1 1 2

/-- See `exS1`. -/
def exS3 : Row := mkRow "R2" "" "A3" "13" none 1 1 1 (-4)

/-- Receipt `R1` with two lines both repeating `instant_savings = 2`. -/
def exW9a : Row := mkRow "R1" "" "A1" "13" none 1 1 1 2

/-- See `exW9a`. -/
def exW9b : Row := mkRow "R1" "" "A2" "13" none 1 1 1 2

/-- An item whose first purchase record has no parseable date. -/
def exF1 : Row := mkRow "R1" "" "GADGET" "13" none 1 10 10 0

/-- Second purchase of the same item, dated. -/
def exF2 : Row := mkRow "R2" "" "GADGET" "13" (some ⟨5, 2024, 1⟩) 1 12 12 0

/-- Two items, bought 3 and 2 times, all dates parseable. -/
def exW10 : List Row :=
  [mkRow "R1" "" "TEA" "13" (some ⟨3, 2024, 1⟩) 1 4 4 0,
   mkRow "R2" "" "TEA" "13" (some ⟨7, 2024, 2⟩) 2 4 8 0,
   mkRow "R3" "" "COFFEE" "13" (some ⟨5, 2024, 1⟩) 2 9 18 0]

/-- Modelled from the claim wording (C6): the number of distinct receipt
keys (receipt identifier with order-number fallback) having at least one
purchase line, else the number of all distinct receipt keys. -/
def claimTotalTrips (rows : List Row) : ℕ :=
  if (((rows.filter (fun r => 0 < r.quantity)).map receiptKey).dedup).length = 0
  then ((rows.map receiptKey).dedup).length
  else (((rows.filter (fun r => 0 < r.quantity)).map receiptKey).dedup).length

/-! ## Claim theorems -/

/-- C1: for every input sequence and every requested savings field, the
receipt deduplicator returns for that field the sum, over distinct receipt
keys (receipt id, else order number, in first-occurrence order of the
input), of the value carried by the first record seen with that key
(`firstPerKey`); a receipt with several line items repeating a savings
value therefore contributes it once. -/
theorem C1_dedup_sums_first_record_per_key (rows : List Row)
    (fields : List SField) (f : SField) (hf : f ∈ fields) :
    deduplicateReceiptField rows fields f
      = ((firstPerKey rows).map (getS f)).sum :=
  deduplicateReceiptField_eq_firstPerKey_sum rows fields f hf

/-- Witness for C1: a receipt with 3 line items each carrying
`instant_savings = 2` contributes exactly 2, not 6. -/
theorem C1_witness :
    SField.instant_savings ∈ savingsFields
    ∧ deduplicateReceiptField exC1rows savingsFields SField.instant_savings
        = 2 := by
  refine ⟨by decide, ?_⟩
  rw [C1_dedup_sums_first_record_per_key exC1rows savingsFields
    SField.instant_savings (by decide)]
  norm_num +decide [firstPerKey, firstPerKeyAux, receiptKey, getS, exC1rows,
    mkRow]

/-- C2 (code evaluated at the failing input): an item observed twice whose
chronologically first unit price is 0 gets a non-finite percent change
(`none`, the image of JavaScript `Infinity`/`NaN`), not the 0 % the
specification mandates. -/
theorem C2_zero_baseline_not_zero_percent :
    (computePriceChanges exC2rows).map (fun c => c.changePercent) = [none]
    ∧ ((none : Option ℚ) ≠ some 0) := by
  constructor
  · norm_num +decide [computePriceChanges, mkPriceChange, pcInit, pcUpd,
      pcAbsLe, mapStep, alUpd, alGet, sortBy, sInsert, round2, oms, itemKey,
      exC2rows, mkRow, List.find?, List.filterMap, List.dedup]
  · simp

/-- C3: every emitted return-eligibility entry follows the claimed status
rules — a "standard"-policy department yields status `anytime` regardless
of days since purchase, a "90-day" department yields
`daysRemaining = 90 - daysSincePurchase` with status `expired` when
`daysRemaining ≤ 0`, `urgent` when `0 < daysRemaining ≤ 14` and `limited`
otherwise — and expired entries are excluded from `totalPotentialRefund`. -/
theorem C3_status_rules_and_refund_exclusion (today : ℤ) (rows : List Row) :
    (∀ e ∈ (computePotentialReturns today rows).all,
      ∀ info, RETURNABLE_DEPTS e.departmentId = some info →
        (info.policy = RetPolicy.standard → e.status = RetStatus.anytime)
        ∧ (info.policy = RetPolicy.ninetyDay →
            e.daysRemaining = some (90 - e.daysSincePurchase)
            ∧ (90 - e.daysSincePurchase ≤ 0 → e.status = RetStatus.expired)
            ∧ (0 < 90 - e.daysSincePurchase → 90 - e.daysSincePurchase ≤ 14 →
                e.status = RetStatus.urgent)
            ∧ (14 < 90 - e.daysSincePurchase → e.status = RetStatus.limited)))
    ∧ (computePotentialReturns today rows).totalPotentialRefund
        = round2 ((((computePotentialReturns today rows).all.filter
            (fun e => e.status ≠ RetStatus.expired)).map
              (fun e => e.refundEstimate)).sum) := by
  constructor
  · intro e he info hinfo
    rcases mem_computePotentialReturns_all today rows e he with ⟨rm, kv, hkv⟩
    rcases mkReturnEntry_spec today rm kv e hkv with ⟨info', hinfo', hstd, h90⟩
    have heq : info' = info := by
      rw [hinfo'] at hinfo
      exact Option.some.inj hinfo
    subst heq
    exact ⟨hstd, h90⟩
  · rfl

/-- Witness for C3: a "90-day" department item purchased 91 days before the
evaluation instant is `expired` and contributes nothing to
`totalPotentialRefund`. -/
theorem C3_witness :
    exC3entry.status = RetStatus.expired
    ∧ (computePotentialReturns (91 * msPerDay) [exC3row]).totalPotentialRefund
        = 0 := by
  have hall : (computePotentialReturns (91 * msPerDay) [exC3row]).all
      = [exC3entry] := by
    norm_num +decide [computePotentialReturns, mkReturnEntry,
      RETURNABLE_DEPTS, paInit, paUpd, mapStep, alUpd, alGet, sortBy, sInsert,
      retLe, statusOrder, round2, oms, itemKey, msPerDay, Int.fdiv, exC3row,
      exC3entry, mkRow, List.find?, List.filterMap]
  have hmem : exC3entry ∈ (computePotentialReturns (91 * msPerDay)
      [exC3row]).all := by
    rw [hall]; exact List.mem_cons_self _ _
  have h := (C3_status_rules_and_refund_exclusion (91 * msPerDay)
      [exC3row]).1 exC3entry hmem
    ⟨"Electronics & Batteries", RetPolicy.ninetyDay⟩
    (by norm_num +decide [RETURNABLE_DEPTS, exC3entry])
  refine ⟨(h.2 rfl).2.1 (by norm_num [exC3entry]), ?_⟩
  norm_num +decide [computePotentialReturns, mkReturnEntry, RETURNABLE_DEPTS,
    paInit, paUpd, mapStep, alUpd, alGet, sortBy, sInsert, retLe, statusOrder,
    round2, oms, itemKey, msPerDay, Int.fdiv, exC3row, mkRow, List.find?,
    List.filterMap]

/-- C4: an item whose department code is absent from the return-policy
table never appears in any return-eligibility output list — every entry of
every output carries a department that is present in `RETURNABLE_DEPTS`. -/
theorem C4_absent_department_never_listed (today : ℤ) (rows : List Row)
    (e : RetEntry)
    (he : e ∈ (computePotentialReturns today rows).all
      ∨ e ∈ (computePotentialReturns today rows).returnable
      ∨ e ∈ (computePotentialReturns today rows).urgent
      ∨ e ∈ (computePotentialReturns today rows).expired
      ∨ ∃ c ∈ (computePotentialReturns today rows).categories, e ∈ c.2.1) :
    RETURNABLE_DEPTS e.departmentId ≠ none := by
  have hmain : ∀ x : RetEntry,
      (∃ rm kv, mkReturnEntry today rm kv = some x) →
      RETURNABLE_DEPTS x.departmentId ≠ none := by
    rintro x ⟨rm, kv, hkv⟩ hc
    rcases mkReturnEntry_spec today rm kv x hkv with ⟨info, hinfo, _⟩
    rw [hinfo] at hc
    cases hc
  have hAll : ∀ x ∈ (computePotentialReturns today rows).all,
      RETURNABLE_DEPTS x.departmentId ≠ none :=
    fun x hx => hmain x (mem_computePotentialReturns_all today rows x hx)
  have hRet : (computePotentialReturns today rows).returnable
      = (computePotentialReturns today rows).all.filter
          (fun e => e.status ≠ RetStatus.expired) := rfl
  have hUrg : (computePotentialReturns today rows).urgent
      = (computePotentialReturns today rows).all.filter
          (fun e => e.status = RetStatus.urgent) := rfl
  have hExp : (computePotentialReturns today rows).expired
      = (computePotentialReturns today rows).all.filter
          (fun e => e.status = RetStatus.expired) := rfl
  rcases he with h | h | h | h | ⟨c, hc, hx⟩
  · exact hAll e h
  · rw [hRet] at h
    exact hAll e (List.mem_filter.mp h).1
  · rw [hUrg] at h
    exact hAll e (List.mem_filter.mp h).1
  · rw [hExp] at h
    exact hAll e (List.mem_filter.mp h).1
  · have hres : ∀ x ∈ ((rows.filter (fun r => 0 < r.quantity)).foldl
        (mapStep (fun r => some (itemKey r)) paInit paUpd) []).filterMap
          (mkReturnEntry today ((rows.filter (fun r => r.quantity < 0)).foldl
            (mapStep (fun r => some (itemKey r)) (fun _ => 0)
              (fun r v => v + |r.quantity|)) [])),
        RETURNABLE_DEPTS x.departmentId ≠ none := by
      intro x hx
      rcases List.mem_filterMap.mp hx with ⟨kv, _, hkv⟩
      exact hmain x ⟨_, kv, hkv⟩
    have hcats : (computePotentialReturns today rows).categories
        = (((rows.filter (fun r => 0 < r.quantity)).foldl
            (mapStep (fun r => some (itemKey r)) paInit paUpd) []).filterMap
              (mkReturnEntry today ((rows.filter (fun r => r.quantity < 0)).foldl
                (mapStep (fun r => some (itemKey r)) (fun _ => 0)
                  (fun r v => v + |r.quantity|)) []))).foldl
            (fun cats e => alUpd e.department
              (fun c => (c.1 ++ [e], c.2 + e.refundEstimate)) ([], 0) cats)
            [] := rfl
    rw [hcats] at hc
    exact cat_foldl_mem (fun x => RETURNABLE_DEPTS x.departmentId ≠ none)
      _ hres [] (by simp) c hc e hx

/-- Witness for C4: from a two-row input (department 31 and the
non-returnable department 13), only the department-31 item is listed and
the claim theorem applies to it. -/
theorem C4_witness :
    ((computePotentialReturns 0 exC4rows).all.map (fun e => e.departmentId))
        = ["31"]
    ∧ RETURNABLE_DEPTS exC4entry.departmentId ≠ none := by
  have hall : (computePotentialReturns 0 exC4rows).all = [exC4entry] := by
    norm_num +decide [computePotentialReturns, mkReturnEntry,
      RETURNABLE_DEPTS, paInit, paUpd, mapStep, alUpd, alGet, sortBy, sInsert,
      retLe, statusOrder, round2, oms, itemKey, msPerDay, Int.fdiv, exC4rows,
      exC4entry, mkRow, List.find?, List.filterMap]
  refine ⟨by rw [hall]; norm_num +decide [exC4entry], ?_⟩
  exact C4_absent_department_never_listed 0 exC4rows exC4entry
    (Or.inl (by rw [hall]; exact List.mem_cons_self _ _))

/-- C5 (counterexample): two lines of the same receipt, same item key and
same date, differing only in unit price — a permutation entirely within one
equal-key group.  The summary totals agree, but the insight sequences
differ: the order of the two equal-dated price observations decides the
direction of the detected price change, so the "Rising Prices Detected"
insight appears for one order only. -/
theorem C5_counterexample :
    receiptKey rowA5 = receiptKey rowB5
    ∧ itemKey rowA5 = itemKey rowB5
    ∧ rowA5.transaction_date = rowB5.transaction_date
    ∧ List.Perm [rowB5, rowA5] [rowA5, rowB5]
    ∧ summaryOf [rowB5, rowA5] = summaryOf [rowA5, rowB5]
    ∧ insightsOf [rowB5, rowA5] ≠ insightsOf [rowA5, rowB5] := by
  refine ⟨rfl, rfl, rfl, List.Perm.swap _ _ _, ?_, ?_⟩
  · norm_num +decide [summaryOf, computeSummary, purchasesOf, returnsOf,
      addToSet, deduplicateReceiptField, dedupStep, savingsFields, getS,
      receiptKey, sumField, rowA5, rowB5, mkRow]
  · have h1 : (insightsOf [rowA5, rowB5]).length = 5 := by
      norm_num +decide [insightsOf, generateInsights, purchasesOf, returnsOf,
        rule1Insights, rule2Insights, rule3Insights, rule4Insights,
        rule5Insights, rule6Insights, computePriceChanges, mkPriceChange,
        pcInit, pcUpd, pcAbsLe, computeFrequencyTable, freqInit, freqUpd,
        computeMonthly, monthlyUpd, monthKey, computeSavingsBreakdown,
        deduplicateReceiptField, dedupStep, savingsFields, getS, mapStep,
        alUpd, alGet, sortBy, sInsert, round2, oms, receiptKey, itemKey,
        sumField, rowA5, rowB5, mkRow, List.find?, List.filterMap, List.dedup]
    have h2 : (insightsOf [rowB5, rowA5]).length = 4 := by
      norm_num +decide [insightsOf, generateInsights, purchasesOf, returnsOf,
        rule1Insights, rule2Insights, rule3Insights, rule4Insights,
        rule5Insights, rule6Insights, computePriceChanges, mkPriceChange,
        pcInit, pcUpd, pcAbsLe, computeFrequencyTable, freqInit, freqUpd,
        computeMonthly, monthlyUpd, monthKey, computeSavingsBreakdown,
        deduplicateReceiptField, dedupStep, savingsFields, getS, mapStep,
        alUpd, alGet, sortBy, sInsert, round2, oms, receiptKey, itemKey,
        sumField, rowA5, rowB5, mkRow, List.find?, List.filterMap, List.dedup]
    intro hc
    rw [congrArg List.length hc, h1] at h2
    exact absurd h2 (by norm_num)

/-- C5 (amended): the summary totals are invariant under any permutation of
the input rows — in particular permutations within equal-key groups — as
long as each savings field is constant across the rows of one receipt key
(the documented receipt invariant); neither `computeSummary` nor
`generateInsights` reads the evaluation instant (they take no clock
parameter in this embedding, only `computePotentialReturns` does), but the
insight sequence itself is not permutation-invariant
(see the counterexample). -/
theorem C5_summary_perm_invariant (rows rows' : List Row)
    (hp : List.Perm rows' rows)
    (hSame : ∀ f ∈ savingsFields, ∀ r1 ∈ rows, ∀ r2 ∈ rows,
      receiptKey r1 = receiptKey r2 → getS f r1 = getS f r2) :
    summaryOf rows' = summaryOf rows :=
  summaryOf_perm rows rows' hp hSame

/-- Witness for C5 (amended): swapping the two lines of one receipt whose
savings fields are identical copies leaves the summary unchanged. -/
theorem C5_witness : summaryOf [w5b, w5a] = summaryOf [w5a, w5b] := by
  refine C5_summary_perm_invariant [w5a, w5b] [w5b, w5a]
    (List.Perm.swap _ _ _) ?_
  intro f hf r1 h1 r2 h2 _
  have e1 : r1 = w5a ∨ r1 = w5b := by simpa using h1
  have e2 : r2 = w5a ∨ r2 = w5b := by simpa using h2
  fin_cases hf <;> rcases e1 with rfl | rfl <;> rcases e2 with rfl | rfl <;>
    rfl

/-- C6 (counterexample): two rows with an empty receipt id and distinct
order numbers.  The claimed key count (with order-number fallback) is 2,
but the engine counts raw `receipt_id` values and returns 1. -/
theorem C6_counterexample :
    claimTotalTrips [exT1, exT2] = 2
    ∧ (summaryOf [exT1, exT2]).totalTrips = 1
    ∧ (summaryOf [exT1, exT2]).totalTrips ≠ claimTotalTrips [exT1, exT2] := by
  have h1 : claimTotalTrips [exT1, exT2] = 2 := by
    norm_num +decide [claimTotalTrips, receiptKey, exT1, exT2, mkRow,
      List.dedup]
  have h2 : (summaryOf [exT1, exT2]).totalTrips = 1 := by
    norm_num +decide [summaryOf, computeSummary, purchasesOf, returnsOf,
      addToSet, exT1, exT2, mkRow]
  exact ⟨h1, h2, by rw [h1, h2]; norm_num⟩

/-- C6 (amended): `totalTrips` is the number of distinct raw `receipt_id`
values among rows with a purchase line (no order-number fallback), falling
back to the number of distinct raw `receipt_id` values among all rows when
the former is 0. -/
theorem C6_totalTrips_amended (rows purchases returns : List Row) :
    (computeSummary rows purchases returns).totalTrips
      = (if (((rows.filter (fun r => 0 < r.quantity)).map
            (fun r => r.receipt_id)).dedup).length = 0
         then ((rows.map (fun r => r.receipt_id)).dedup).length
         else (((rows.filter (fun r => 0 < r.quantity)).map
            (fun r => r.receipt_id)).dedup).length) := by
  rw [computeSummary_totalTrips]
  simp only [← List.card_toFinset]

/-- C7 (counterexample): purchases in only two distinct months plus a
return-only third month still trigger the spending-trend rule (the guard
counts month buckets, not purchase months), emitting "Spending Is Trending
Down" here. -/
theorem C7_counterexample :
    ((((purchasesOf [exM1, exM2, exM3]).filterMap
        (fun r => monthKey r.transaction_date)).dedup).length = 2)
    ∧ ∃ i ∈ insightsOf [exM1, exM2, exM3],
        i.title = "Spending Is Trending Down" ∧ i.type = IType.success := by
  constructor
  · norm_num +decide [purchasesOf, monthKey, exM1, exM2, exM3, mkRow,
      List.filterMap, List.dedup]
  · refine ⟨⟨IType.success, "Spending Is Trending Down",
      IText.trend [100, 50, 0]⟩, ?_, rfl, rfl⟩
    norm_num +decide [insightsOf, generateInsights, purchasesOf, returnsOf,
      rule1Insights, rule2Insights, rule3Insights, rule4Insights,
      rule5Insights, rule6Insights, computePriceChanges, mkPriceChange,
      pcInit, pcUpd, pcAbsLe, computeFrequencyTable, freqInit, freqUpd,
      computeMonthly, monthlyUpd, monthKey, computeSavingsBreakdown,
      deduplicateReceiptField, dedupStep, savingsFields, getS, mapStep,
      alUpd, alGet, sortBy, sInsert, round2, oms, receiptKey, itemKey,
      sumField, exM1, exM2, exM3, mkRow, List.find?, List.filterMap,
      List.dedup]

/-- C7 (amended): the spending-trend rule fires iff the monthly series has
at least 3 month buckets (months with any purchase or return record whose
date parses); it then inspects the purchases series of the chronologically
last 3 buckets and emits the warning "Spending Is Trending Up" iff those
values are strictly increasing, the success "Spending Is Trending Down"
iff strictly decreasing, and nothing otherwise. -/
theorem C7_trend_rule_amended (rows purchases returns : List Row) :
    ((∃ i ∈ generateInsights rows purchases returns,
        i.title = "Spending Is Trending Up" ∧ i.type = IType.warning)
      ↔ (3 ≤ (computeMonthly rows).labels.length
          ∧ ((computeMonthly rows).purchases.drop
              ((computeMonthly rows).purchases.length - 3)).getD 1 0
            < ((computeMonthly rows).purchases.drop
              ((computeMonthly rows).purchases.length - 3)).getD 2 0
          ∧ ((computeMonthly rows).purchases.drop
              ((computeMonthly rows).purchases.length - 3)).getD 0 0
            < ((computeMonthly rows).purchases.drop
              ((computeMonthly rows).purchases.length - 3)).getD 1 0))
    ∧ ((∃ i ∈ generateInsights rows purchases returns,
        i.title = "Spending Is Trending Down" ∧ i.type = IType.success)
      ↔ (3 ≤ (computeMonthly rows).labels.length
          ∧ ((computeMonthly rows).purchases.drop
              ((computeMonthly rows).purchases.length - 3)).getD 2 0
            < ((computeMonthly rows).purchases.drop
              ((computeMonthly rows).purchases.length - 3)).getD 1 0
          ∧ ((computeMonthly rows).purchases.drop
              ((computeMonthly rows).purchases.length - 3)).getD 1 0
            < ((computeMonthly rows).purchases.drop
              ((computeMonthly rows).purchases.length - 3)).getD 0 0)) := by
  constructor
  · constructor
    · rintro ⟨i, hi, ht, hty⟩
      exact (rule5_up_iff rows).mp
        ⟨i, trend_insight_in_rule5 rows purchases returns i hi (Or.inl ht),
          ht, hty⟩
    · intro hc
      rcases (rule5_up_iff rows).mpr hc with ⟨i, hi, ht, hty⟩
      refine ⟨i, ?_, ht, hty⟩
      simp only [generateInsights, List.mem_append]
      tauto
  · constructor
    · rintro ⟨i, hi, ht, hty⟩
      exact (rule5_down_iff rows).mp
        ⟨i, trend_insight_in_rule5 rows purchases returns i hi (Or.inr ht),
          ht, hty⟩
    · intro hc
      rcases (rule5_down_iff rows).mpr hc with ⟨i, hi, ht, hty⟩
      refine ⟨i, ?_, ht, hty⟩
      simp only [generateInsights, List.mem_append]
      tauto

/-- Witness for C7 (amended): monthly purchase totals of 100, 150, 200 over
three consecutive months trigger the "Spending Is Trending Up" warning. -/
theorem C7_witness :
    ∃ i ∈ generateInsights exC7w (purchasesOf exC7w) (returnsOf exC7w),
      i.title = "Spending Is Trending Up" ∧ i.type = IType.warning := by
  refine (C7_trend_rule_amended exC7w (purchasesOf exC7w)
    (returnsOf exC7w)).1.mpr ?_
  norm_num +decide [computeMonthly, monthlyUpd, monthKey, mapStep, alUpd,
    alGet, sortBy, sInsert, round2, exC7w, mkRow, List.find?]

/-- C8 (counterexample): a quantity-0 record with line total 5 lands in the
returns series of its month (the `else` branch catches it), though the
claim says it contributes to neither series. -/
theorem C8_counterexample :
    exZQ.quantity = 0
    ∧ (computeMonthly [exZQ]).returns = [5]
    ∧ ((5 : ℚ) ≠ 0) := by
  refine ⟨rfl, ?_, by norm_num⟩
  norm_num +decide [computeMonthly, monthlyUpd, monthKey, mapStep, alUpd,
    alGet, sortBy, sInsert, round2, exZQ, mkRow, List.find?]

/-- C8 (amended): the month labels are exactly the parseable-date months of
the input, sorted strictly ascending; a month's purchases value is the
rounded sum of line totals over its purchase lines (quantity > 0), and its
returns value is the rounded sum of `|line_total|` over all its other
records (quantity ≤ 0, including quantity = 0); unparseable dates are
excluded. -/
theorem C8_monthly_series_amended (rows : List Row) :
    (computeMonthly rows).labels.Pairwise (· < ·)
    ∧ (∀ k, k ∈ (computeMonthly rows).labels
        ↔ ∃ r ∈ rows, monthKey r.transaction_date = some k)
    ∧ (computeMonthly rows).purchases
        = (computeMonthly rows).labels.map (fun k =>
            round2 (((rows.filter (fun r =>
              monthKey r.transaction_date = some k ∧ 0 < r.quantity)).map
                (fun r => r.line_total)).sum))
    ∧ (computeMonthly rows).returns
        = (computeMonthly rows).labels.map (fun k =>
            round2 (((rows.filter (fun r =>
              monthKey r.transaction_date = some k ∧ ¬ 0 < r.quantity)).map
                (fun r => |r.line_total|)).sum)) := by
  refine ⟨computeMonthly_labels_pairwise rows,
    computeMonthly_labels_mem rows, ?_, ?_⟩
  · rw [show (computeMonthly rows).purchases
        = (computeMonthly rows).labels.map (fun k =>
            round2 ((alGet (rows.foldl (mapStep
              (fun r => monthKey r.transaction_date)
              (fun _ => ((0 : ℚ), (0 : ℚ))) monthlyUpd) []) k).getD (0, 0)).1)
      from rfl]
    refine List.map_eq_map_iff.mpr ?_
    intro k _
    rw [computeMonthly_get rows k]
  · rw [show (computeMonthly rows).returns
        = (computeMonthly rows).labels.map (fun k =>
            round2 ((alGet (rows.foldl (mapStep
              (fun r => monthKey r.transaction_date)
              (fun _ => ((0 : ℚ), (0 : ℚ))) monthlyUpd) []) k).getD (0, 0)).2)
      from rfl]
    refine List.map_eq_map_iff.mpr ?_
    intro k _
    rw [computeMonthly_get rows k]

/-- Witness for C8 (amended): instantiated at the quantity-0 example the
returns series equals the claimed filtered sum, which evaluates to 5. -/
theorem C8_witness :
    (computeMonthly [exZQ]).returns
      = (computeMonthly [exZQ]).labels.map (fun k =>
          round2 ((([exZQ].filter (fun r =>
            monthKey r.transaction_date = some k ∧ ¬ 0 < r.quantity)).map
              (fun r => |r.line_total|)).sum))
    ∧ (computeMonthly [exZQ]).labels = [202401] := by
  refine ⟨(C8_monthly_series_amended [exZQ]).2.2.2, ?_⟩
  norm_num +decide [computeMonthly, monthlyUpd, monthKey, mapStep, alUpd,
    alGet, sortBy, sInsert, exZQ, mkRow, List.find?]

/-- C9 (counterexample): with mixed-sign savings values the deduplicated
total can exceed the naive per-line total, because both take absolute
values only after summing.  Receipt `R1` has two lines each carrying
`instant_savings = 2` (the claim's premise holds), yet the deduplicated
total is 2 while the naive per-line sum is `|2 + 2 - 4| = 0`. -/
theorem C9_counterexample :
    (∃ pre r0 post, ([exS1, exS2, exS3] : List Row) = pre ++ r0 :: post
      ∧ (∃ r' ∈ pre, receiptKey r' = receiptKey r0
          ∧ ∃ f1 ∈ savingsFields, getS f1 r' ≠ 0)
      ∧ ∃ f2 ∈ savingsFields, getS f2 r0 ≠ 0)
    ∧ ¬ ((summaryOf [exS1, exS2, exS3]).totalSavings
          < naiveTotalSavings [exS1, exS2, exS3]) := by
  constructor
  · refine ⟨[exS1], exS2, [exS3], rfl,
      ⟨exS1, List.mem_cons_self _ _, by decide,
        SField.instant_savings, by decide, by norm_num [getS, exS1, mkRow]⟩,
      SField.instant_savings, by decide, by norm_num [getS, exS2, mkRow]⟩
  · have h1 : (summaryOf [exS1, exS2, exS3]).totalSavings = 2 := by
      norm_num +decide [summaryOf, computeSummary, purchasesOf, returnsOf,
        addToSet, deduplicateReceiptField, dedupStep, savingsFields, getS,
        receiptKey, sumField, exS1, exS2, exS3, mkRow]
    have h2 : naiveTotalSavings [exS1, exS2, exS3] = 0 := by
      norm_num [naiveTotalSavings, sumField, exS1, exS2, exS3, mkRow]
    rw [h1, h2]
    norm_num

/-- C9 (amended): when all savings values are nonnegative and some receipt
has at least two lines each carrying a non-zero savings field, the
deduplicated savings total is strictly less than the naive per-line sum of
the four savings fields. -/
theorem C9_dedup_lt_naive_amended (rows : List Row)
    (hnn : ∀ r ∈ rows, ∀ f ∈ savingsFields, 0 ≤ getS f r)
    (hmulti : ∃ pre r0 post, rows = pre ++ r0 :: post
      ∧ (∃ r' ∈ pre, receiptKey r' = receiptKey r0
          ∧ ∃ f1 ∈ savingsFields, getS f1 r' ≠ 0)
      ∧ ∃ f2 ∈ savingsFields, getS f2 r0 ≠ 0) :
    (summaryOf rows).totalSavings < naiveTotalSavings rows := by
  rcases hmulti with ⟨pre, r0, post, hsplit, ⟨r', hr', hkey, _⟩, f2, hf2, hnz⟩
  exact dedup_lt_naive rows hnn pre r0 post hsplit ⟨r', hr', hkey⟩ f2 hf2 hnz

/-- Witness for C9 (amended): a receipt with two lines both carrying
`instant_savings = 2` makes the deduplicated total (2) strictly smaller
than the naive per-line sum (4). -/
theorem C9_witness :
    (summaryOf [exW9a, exW9b]).totalSavings
      < naiveTotalSavings [exW9a, exW9b] := by
  refine C9_dedup_lt_naive_amended [exW9a, exW9b] ?_ ?_
  · intro r hr f hf
    have e1 : r = exW9a ∨ r = exW9b := by simpa using hr
    fin_cases hf <;> rcases e1 with rfl | rfl <;>
      norm_num [getS, exW9a, exW9b, mkRow]
  · exact ⟨[exW9a], exW9b, [], rfl,
      ⟨exW9a, List.mem_cons_self _ _, by decide,
        SField.instant_savings, by decide, by norm_num [getS, exW9a, mkRow]⟩,
      SField.instant_savings, by decide, by norm_num [getS, exW9b, mkRow]⟩

/-- C10 (counterexample): an item whose first purchase record has no
parseable date keeps `firstDate = none` for ever — a later real date `d`
never replaces it, because the JavaScript comparison `d < null` is false —
so the reported earliest date is not the minimum (5) of the observed
parseable dates. -/
theorem C10_counterexample :
    ((computeFrequencyTable [exF1, exF2]).map
        (fun e => e.firstDate.map JSDate.ms)) = [none]
    ∧ ([exF1, exF2].filterMap
        (fun r => r.transaction_date.map JSDate.ms)).min? = some 5
    ∧ ((none : Option ℤ) ≠ some 5) := by
  refine ⟨?_, by norm_num +decide [exF1, exF2, mkRow, List.filterMap], by simp⟩
  norm_num +decide [computeFrequencyTable, freqInit, freqUpd, mapStep, alUpd,
    alGet, sortBy, sInsert, oms, itemKey, exF1, exF2, mkRow, List.find?]

/-- C10 (amended): the frequency table is sorted descending by count, and
for every entry there is an item key whose purchase rows are non-empty,
whose total absolute quantity is the entry's count, and — provided every
row of that item has a parseable date — whose earliest/latest reported
dates are the minimum/maximum of the observed dates. -/
theorem C10_freq_table_amended (purchases : List Row) :
    (computeFrequencyTable purchases).Pairwise (fun a b => b.count ≤ a.count)
    ∧ ∀ e ∈ computeFrequencyTable purchases, ∃ k,
        purchases.filter (fun r => itemKey r = k) ≠ []
        ∧ e.count = (((purchases.filter (fun r => itemKey r = k)).map
            (fun r => |r.quantity|)).sum)
        ∧ ((∀ r ∈ purchases.filter (fun r => itemKey r = k),
              r.transaction_date.isSome) →
            e.firstDate.map JSDate.ms
              = ((purchases.filter (fun r => itemKey r = k)).filterMap
                  (fun r => r.transaction_date.map JSDate.ms)).min?
            ∧ e.lastDate.map JSDate.ms
              = ((purchases.filter (fun r => itemKey r = k)).filterMap
                  (fun r => r.transaction_date.map JSDate.ms)).max?) := by
  constructor
  · have h := sortBy_pairwise
      (fun a b : FreqEntry => decide (b.count ≤ a.count))
      (fun x y => by
        rcases le_total y.count x.count with h | h
        · exact Or.inl (by simpa using h)
        · exact Or.inr (by simpa using h))
      (fun x y z hxy hyz => by
        simp only [decide_eq_true_eq] at hxy hyz ⊢
        exact hyz.trans hxy)
      ((purchases.foldl (mapStep (fun r => some (itemKey r)) freqInit
        freqUpd) []).map (·.2))
    exact h.imp (by intro a b hab; simpa using hab)
  · intro e he
    rcases computeFrequencyTable_mem purchases e he with ⟨k, a, rest, hfil, hee⟩
    refine ⟨k, by rw [hfil]; simp, ?_, ?_⟩
    · rw [hee, hfil, freq_foldl_count rest (freqUpd a (freqInit a)),
        freqUpd_count]
      simp [freqInit]
    · intro hall
      rw [hfil] at hall
      rcases Option.isSome_iff_exists.mp (hall a (List.mem_cons_self _ _))
        with ⟨da, hda⟩
      have hinit : (freqUpd a (freqInit a)).firstDate = some da := by
        rw [freqUpd_firstDate, hda]
        simp [freqInit, hda, oms]
      have hinit2 : (freqUpd a (freqInit a)).lastDate = some da := by
        rw [freqUpd_lastDate, hda]
        simp [freqInit, hda, oms]
      have hrest : ∀ r ∈ rest, r.transaction_date.isSome :=
        fun r hr => hall r (List.mem_cons_of_mem _ hr)
      constructor
      · rw [hee, freq_foldl_firstDate rest (freqUpd a (freqInit a)) da hinit
          hrest, hfil, List.filterMap_cons, hda]
        rfl
      · rw [hee, freq_foldl_lastDate rest (freqUpd a (freqInit a)) da hinit2
          hrest, hfil, List.filterMap_cons, hda]
        rfl

/-- Witness for C10 (amended): a concrete two-item table is sorted
descending by count, and its entries' dates match the observed extremes. -/
theorem C10_witness :
    (computeFrequencyTable exW10).Pairwise (fun a b => b.count ≤ a.count)
    ∧ ((computeFrequencyTable exW10).map (fun e => e.count)) = [3, 2]
    ∧ ((computeFrequencyTable exW10).map
        (fun e => e.firstDate.map JSDate.ms)) = [some 3, some 5] := by
  refine ⟨(C10_freq_table_amended exW10).1, ?_, ?_⟩ <;>
    norm_num +decide [computeFrequencyTable, freqInit, freqUpd, mapStep,
      alUpd, alGet, sortBy, sInsert, oms, itemKey, exW10, mkRow, List.find?]
